import Mathlib

/-!
# Verification of the hybrid Othello endgame solver

Shallow embedding of `src/othello_endgame_solver_hybrid_check_tthit_fixed.c`.
Machine 64-bit words are modelled as `Nat` values below `2^64`, with wrapping
applied explicitly (`% 2^64`) wherever the C unsigned arithmetic can wrap.
32-bit quantities (`pn`, `dn`, thresholds) are modelled analogously.
-/

namespace Endgame

/-! ## 64-bit word helpers -/

/-- `2^64`, the modulus of C `uint64_t` arithmetic. -/
def M64 : Nat := 2 ^ 64

/-- C `uint64_t` left shift: shift then truncate to 64 bits. -/
def shl64 (a k : Nat) : Nat := (a <<< k) % M64

/-- C `uint64_t` subtraction (wraps modulo `2^64`). -/
def sub64 (a b : Nat) : Nat := (a + M64 - b % M64) % M64

/-- C `uint64_t` negation `-a` (two's complement modulo `2^64`). -/
def neg64 (a : Nat) : Nat := (M64 - a % M64) % M64

/-- `__builtin_popcountll`: number of set bits of a 64-bit word. -/
def popcount64 (b : Nat) : Nat := (List.range 64).countP (fun i => b.testBit i)

/-- `__builtin_clzll` semantics on a nonzero 64-bit word:
count of leading zero bits, i.e. `63 - log2 x`. -/
def clz64 (x : Nat) : Nat := 63 - Nat.log2 x

/-! ## Bitboard move generation (`get_moves_scalar`, `get_moves`)

Direct transliteration of the Kogge–Stone style flood fill in the C source.
`get_moves` dispatches to the scalar version (the AVX2 path is disabled in the
source). -/

def get_moves_scalar (P O : Nat) : Nat :=
  let mask := O &&& 0x7e7e7e7e7e7e7e7e
  let flip_l := mask &&& shl64 P 1
  let flip_r := mask &&& (P >>> 1)
  let flip_l := flip_l ||| (mask &&& shl64 flip_l 1)
  let flip_r := flip_r ||| (mask &&& (flip_r >>> 1))
  let pre_l := mask &&& shl64 flip_l 1
  let pre_r := mask &&& (flip_r >>> 1)
  let flip_l := flip_l ||| pre_l ||| shl64 pre_l 2
  let flip_r := flip_r ||| pre_r ||| (pre_r >>> 2)
  let flip_l := flip_l ||| (mask &&& shl64 flip_l 1)
  let flip_r := flip_r ||| (mask &&& (flip_r >>> 1))
  let mask2 := O &&& 0x00ffffffffffff00
  let flip_h := mask2 &&& shl64 P 8
  let flip_v := mask2 &&& (P >>> 8)
  let flip_h := flip_h ||| (mask2 &&& shl64 flip_h 8)
  let flip_v := flip_v ||| (mask2 &&& (flip_v >>> 8))
  let flip_h := flip_h ||| (mask2 &&& shl64 (flip_h &&& shl64 mask2 8) 16)
  let flip_v := flip_v ||| (mask2 &&& ((flip_v &&& (mask2 >>> 8)) >>> 16))
  let flip_h := flip_h ||| (mask2 &&& shl64 flip_h 8)
  let flip_v := flip_v ||| (mask2 &&& (flip_v >>> 8))
  let mask3 := O &&& 0x007e7e7e7e7e7e00
  let flip_d1 := mask3 &&& shl64 P 9
  let flip_d2 := mask3 &&& shl64 P 7
  let flip_d1 := flip_d1 ||| (mask3 &&& shl64 flip_d1 9)
  let flip_d2 := flip_d2 ||| (mask3 &&& shl64 flip_d2 7)
  let flip_d1 := flip_d1 ||| (mask3 &&& shl64 (flip_d1 &&& shl64 mask3 9) 18)
  let flip_d2 := flip_d2 ||| (mask3 &&& shl64 (flip_d2 &&& shl64 mask3 7) 14)
  let flip_d1 := flip_d1 ||| (mask3 &&& shl64 flip_d1 9)
  let flip_d2 := flip_d2 ||| (mask3 &&& shl64 flip_d2 7)
  let flip_d1 := flip_d1 ||| (mask3 &&& (P >>> 9))
  let flip_d2 := flip_d2 ||| (mask3 &&& (P >>> 7))
  let flip_d1 := flip_d1 ||| (mask3 &&& (flip_d1 >>> 9))
  let flip_d2 := flip_d2 ||| (mask3 &&& (flip_d2 >>> 7))
  let flip_d1 := flip_d1 ||| (mask3 &&& ((flip_d1 &&& (mask3 >>> 9)) >>> 18))
  let flip_d2 := flip_d2 ||| (mask3 &&& ((flip_d2 &&& (mask3 >>> 7)) >>> 14))
  let flip_d1 := flip_d1 ||| (mask3 &&& (flip_d1 >>> 9))
  let flip_d2 := flip_d2 ||| (mask3 &&& (flip_d2 >>> 7))
  let moves := shl64 flip_l 1 ||| (flip_r >>> 1) |||
               shl64 flip_h 8 ||| (flip_v >>> 8) |||
               shl64 flip_d1 9 ||| (flip_d1 >>> 9) |||
               shl64 flip_d2 7 ||| (flip_d2 >>> 7)
  moves &&& (0xffffffffffffffff ^^^ (P ||| O))

/-- `get_moves` dispatcher: the source disables the AVX2 variant and always
calls the scalar version. -/
def get_moves (P O : Nat) : Nat := get_moves_scalar P O

/-! ## Disc flipping (`flip_discs`, `make_move`) -/

/-- The diagonal ray walk inside `flip_discs` (the `while` loop over
`dirs[] = {7, 9, -7, -9}`), with explicit fuel; the loop takes at most 8
steps on a real board and the embedding supplies fuel 64. -/
def rayFlip (P O : Nat) (x y dir : Int) : Nat → Int → Nat → Nat
  | 0, _, _ => 0
  | fuel + 1, p, line =>
    if 0 ≤ p ∧ p < 64 then
      let pn := p.toNat
      let px : Int := (pn % 8 : Nat)
      let py : Int := (pn / 8 : Nat)
      if (px - x).natAbs ≠ (py - y).natAbs then 0
      else if O.testBit pn then rayFlip P O x y dir fuel (p + dir) (line ||| shl64 1 pn)
      else if P.testBit pn then line
      else 0
    else 0

/-- `flip_discs(P, O, pos)`: horizontal and vertical flips via the outflank
bit tricks of the source, diagonal flips via the ray walk. -/
def flip_discs (P O : Nat) (pos : Nat) : Nat :=
  let move_bit := shl64 1 pos
  let PO := P ||| O
  let x := pos % 8
  let y := pos / 8
  let flip0 : Nat := 0
  -- if (x < 6): increasing horizontal direction
  let flip1 :=
    if x < 6 then
      let mask := shl64 0x7e (y * 8)
      let outflank := sub64 (shl64 0x80 (y * 8)) move_bit &&& PO &&& mask
      if outflank ≠ 0 then
        let boundary := outflank &&& neg64 outflank
        if P &&& boundary ≠ 0 then flip0 ||| (sub64 boundary move_bit &&& mask) else flip0
      else flip0
    else flip0
  -- if (x > 1): decreasing horizontal direction
  let flip2 :=
    if x > 1 then
      let mask := shl64 0x7e (y * 8)
      let outflank := sub64 move_bit 1 &&& PO &&& mask
      if outflank ≠ 0 then
        let boundary := shl64 1 (63 - clz64 outflank)
        if P &&& boundary ≠ 0 then
          flip1 ||| (sub64 move_bit (boundary + 1) &&& mask)
        else flip1
      else flip1
    else flip1
  -- if (y < 6): increasing vertical direction
  let flip3 :=
    if y < 6 then
      let mask := 0x00ffffffffffff00 &&& shl64 0x0101010101010101 x
      let outflank := sub64 (0x8000000000000000 >>> (7 - x)) move_bit &&& PO &&& mask
      if outflank ≠ 0 then
        let boundary := outflank &&& neg64 outflank
        if P &&& boundary ≠ 0 then flip2 ||| (sub64 boundary move_bit &&& mask) else flip2
      else flip2
    else flip2
  -- if (y > 1): decreasing vertical direction
  let flip4 :=
    if y > 1 then
      let mask := 0x00ffffffffffff00 &&& shl64 0x0101010101010101 x
      let outflank := sub64 move_bit 1 &&& PO &&& mask
      if outflank ≠ 0 then
        let boundary := shl64 1 (63 - clz64 outflank)
        if P &&& boundary ≠ 0 then
          flip3 ||| (sub64 move_bit (boundary + 1) &&& mask)
        else flip3
      else flip3
    else flip3
  -- diagonal directions {7, 9, -7, -9}
  let xi : Int := x
  let yi : Int := y
  let pi : Int := pos
  let flip5 := flip4 ||| rayFlip P O xi yi 7 64 (pi + 7) 0
  let flip6 := flip5 ||| rayFlip P O xi yi 9 64 (pi + 9) 0
  let flip7 := flip6 ||| rayFlip P O xi yi (-7) 64 (pi + -7) 0
  flip7 ||| rayFlip P O xi yi (-9) 64 (pi + -9) 0

/-- `make_move`: place the disc, apply the flips, then swap the two boards
(the mover becomes the opponent of the returned position). -/
def make_move (P O : Nat) (pos : Nat) : Nat × Nat :=
  let flip := flip_discs P O pos
  let move := shl64 1 pos
  let P1 := P ||| move ||| flip
  let O1 := O ^^^ flip
  (O1, P1)

/-! ## Core constants and enums -/

/-- `#define PN_INF 100000000`. -/
def PN_INF : Nat := 100000000

/-- `#define DN_INF 100000000`. -/
def DN_INF : Nat := 100000000

/-- The C `Result` enum. -/
inductive Result where
  | unknown
  | win
  | lose
  | draw
deriving DecidableEq, Repr

/-- The C `NodeType` enum. -/
inductive NodeType where
  | or_node
  | and_node
deriving DecidableEq, Repr

/-- The fields of the C `DFPNNode` relevant to the embedded operations
(children are passed separately as lists; the node type is passed as an
explicit argument where the C reads `node->type`). -/
structure DFPNNode where
  player : Nat := 0
  opponent : Nat := 0
  pn : Nat := 1
  dn : Nat := 1
  result : Result := .unknown
  is_proven : Bool := false
  eval_score : Int := 0
  depth : Int := 0
  ntype : NodeType := .or_node
deriving DecidableEq, Repr

/-! ## `update_pn_dn` (§4.6 of the spec) -/

/-- One step of the saturating `uint64_t` accumulation
`sum_dn += child->dn; if (sum_dn >= DN_INF) sum_dn = DN_INF;`. -/
def satAdd (acc d : Nat) : Nat := if DN_INF ≤ acc + d then DN_INF else acc + d

/-- Child counted into `total_proven` by `update_pn_dn`
(`pn == 0`, else `dn == 0`, else `is_proven && result == RESULT_EXACT_DRAW`). -/
def child_counted_proven (c : DFPNNode) : Bool :=
  c.pn == 0 || c.dn == 0 || (c.is_proven && c.result == .draw)

/-- Child counted into `proven_draw_count` by `update_pn_dn`
(reached only when `pn != 0` and `dn != 0`). -/
def child_counted_draw (c : DFPNNode) : Bool :=
  c.pn != 0 && c.dn != 0 && c.is_proven && c.result == .draw

/-- `update_pn_dn`: recompute a node's `pn`/`dn` from its children and apply
the Win/Lose/Draw promotion chain.  Mirrors the source exactly, including the
early return for a childless node and the `is_proven`-gated Draw rule. -/
def update_pn_dn (ty : NodeType) (node : DFPNNode) (children : List DFPNNode) : DFPNNode :=
  if children.isEmpty then node
  else
    let total_proven := children.countP (fun c => child_counted_proven c)
    let proven_draw_count := children.countP (fun c => child_counted_draw c)
    match ty with
    | .or_node =>
      let min_pn := children.foldl (fun m c => min m c.pn) PN_INF
      let sum_dn := children.foldl (fun s c => satAdd s c.dn) 0
      let node1 : DFPNNode := { node with pn := min_pn, dn := sum_dn }
      if node1.pn = 0 then { node1 with result := .win, is_proven := true }
      else if node1.dn = 0 then { node1 with result := .lose, is_proven := true }
      else if total_proven = children.length ∧ 0 < proven_draw_count then
        { node1 with result := .draw, is_proven := true, pn := PN_INF, dn := DN_INF }
      else node1
    | .and_node =>
      let sum_pn := children.foldl (fun s c => satAdd s c.pn) 0
      let min_dn := children.foldl (fun m c => min m c.dn) DN_INF
      let node1 : DFPNNode := { node with pn := sum_pn, dn := min_dn }
      if node1.dn = 0 then { node1 with result := .lose, is_proven := true }
      else if node1.pn = 0 then { node1 with result := .win, is_proven := true }
      else if total_proven = children.length ∧ 0 < proven_draw_count then
        { node1 with result := .draw, is_proven := true, pn := PN_INF, dn := DN_INF }
      else node1

/-! ## Terminal evaluation (`get_final_score` and the terminal branch of
`dfpn_solve_node`) -/

/-- `get_final_score`: score of the final position from the perspective of the
side `P`, with the empty squares credited to the winner. -/
def get_final_score (P O : Nat) : Int :=
  let p_count : Int := popcount64 P
  let o_count : Int := popcount64 O
  let empty : Int := 64 - p_count - o_count
  if o_count < p_count then p_count - o_count + empty
  else if p_count < o_count then -(o_count - p_count + empty)
  else 0

/-- The terminal-leaf branch of `dfpn_solve_node` (both sides have no legal
move): sets `pn`, `dn`, `result` from `get_final_score` with the sign
interpretation inverted at an AND node, and marks the node proven. -/
def dfpn_terminal (ty : NodeType) (node : DFPNNode) : DFPNNode :=
  let score := get_final_score node.player node.opponent
  match ty with
  | .or_node =>
    if 0 < score then { node with result := .win, pn := 0, dn := DN_INF, is_proven := true }
    else if score < 0 then { node with result := .lose, pn := PN_INF, dn := 0, is_proven := true }
    else { node with result := .draw, pn := PN_INF, dn := DN_INF, is_proven := true }
  | .and_node =>
    if 0 < score then { node with result := .lose, pn := PN_INF, dn := 0, is_proven := true }
    else if score < 0 then { node with result := .win, pn := 0, dn := DN_INF, is_proven := true }
    else { node with result := .draw, pn := PN_INF, dn := DN_INF, is_proven := true }

/-! ## Transposition table (`tt_probe`, `tt_store`) -/

/-- C cast to `int8_t` (wraps into `[-128, 127]`); applied when
`tt_store` assigns the incoming `int` depth to the 8-bit entry field. -/
def toInt8 (d : Int) : Int := (d + 128) % 256 - 128

/-- One TT slot (`TTEntry`): 64-bit key, `pn`, `dn`, result, stored depth
(`int8_t`), eval score (`int16_t`) and age. -/
structure TTEntry where
  key : Nat := 0
  pn : Nat := 0
  dn : Nat := 0
  result : Result := .unknown
  depth : Int := 0
  eval_score : Int := 0
  age : Nat := 0
deriving DecidableEq, Repr

/-- The table: a power-of-two mask and the entry array, modelled functionally.
Locks only serialize access and are invisible to the sequential semantics. -/
structure TTState where
  mask : Nat
  entries : Nat → TTEntry

/-- Pointwise entry update. -/
def setEntry (f : Nat → TTEntry) (i : Nat) (e : TTEntry) : Nat → TTEntry :=
  fun j => if j = i then e else f j

/-- `tt_probe`: hit iff the slot at `key & mask` holds the same key at a depth
at least the requested one; on a hit the stored data is returned. -/
def tt_probe (tt : TTState) (key : Nat) (depth : Int) :
    Option (Nat × Nat × Result × Int) :=
  let e := tt.entries (key &&& tt.mask)
  if e.key = key ∧ depth ≤ e.depth then some (e.pn, e.dn, e.result, e.eval_score)
  else none

/-- `tt_store`: overwrite the slot at `key & mask` iff the stored depth does
not exceed the incoming depth (`entry->depth <= depth`); the depth is narrowed
to `int8_t` on assignment and the age is reset. -/
def tt_store (tt : TTState) (key : Nat) (depth : Int) (pn dn : Nat)
    (result : Result) (eval_score : Int) : TTState :=
  let idx := key &&& tt.mask
  let e := tt.entries idx
  if e.depth ≤ depth then
    let e1 : TTEntry :=
      { key := key, pn := pn, dn := dn, result := result,
        depth := toInt8 depth, eval_score := eval_score, age := 0 }
    { tt with entries := setEntry tt.entries idx e1 }
  else tt

/-! ## 32-bit threshold arithmetic and the widening rule -/

/-- `2^32`, the modulus of C `uint32_t` arithmetic. -/
def M32 : Nat := 2 ^ 32

/-- C `uint32_t` addition. -/
def add32 (a b : Nat) : Nat := (a + b) % M32

/-- C `uint32_t` subtraction. -/
def sub32 (a b : Nat) : Nat := (a + M32 - b % M32) % M32

/-- The threshold assignment performed on the selected child inside the inner
loop of `dfpn_solve_node` (lines 2986–2992 of the source): the first component
is the child's `threshold_pn`, the second its `threshold_dn`.  Note that the
AND branch reads `node->threshold_dn`, `node->dn` and `child->dn` — the same
quantities as the OR branch — and copies `node->threshold_pn` unchanged. -/
def child_thresholds (ty : NodeType) (npn ndn nTpn nTdn cpn cdn : Nat) : Nat × Nat :=
  match ty with
  | .or_node => (add32 (sub32 nTdn ndn) cdn, nTpn)
  | .and_node => (nTpn, add32 (sub32 nTdn ndn) cdn)

/-- The widening rule as the claim states it: OR as in the source, AND as the
mirror image with the roles of `pn` and `dn` exchanged.  Used only to compare
the claim's wording with `child_thresholds`. -/
def claimed_child_thresholds (ty : NodeType) (npn ndn nTpn nTdn cpn cdn : Nat) :
    Nat × Nat :=
  match ty with
  | .or_node => (add32 (sub32 nTdn ndn) cdn, nTpn)
  | .and_node => (nTdn, add32 (sub32 nTpn npn) cpn)

/-! ## Tasks and the four subtask-construction sites -/

/-- The C `Task` structure. -/
structure Task where
  player : Nat := 0
  opponent : Nat := 0
  root_move : Int := 0
  priority : Int := 0
  eval_score : Int := 0
  is_root_task : Bool := false
  depth : Int := 0
  node_type : NodeType := .or_node
  generation : Int := 0
deriving DecidableEq, Repr

instance : Inhabited Task := ⟨{}⟩

/-- The child-priority formula shared by the spawn sites:
OR `(PN_INF - child->pn) / 1000 + child->eval_score`,
AND `(DN_INF - child->dn) / 1000 - child->eval_score`.
`Int.tdiv` is C `int` division (truncation toward zero). -/
def spawn_priority (ty : NodeType) (c : DFPNNode) : Int :=
  match ty with
  | .or_node => Int.tdiv ((PN_INF : Int) - (c.pn : Int)) 1000 + c.eval_score
  | .and_node => Int.tdiv ((DN_INF : Int) - (c.dn : Int)) 1000 - c.eval_score

/-- The Early Spawn task built right after expansion in `dfpn_solve_node`
(source lines 2895–2905): `root_move` is set to the literal `0` with the
comment that the root move is unknown mid-search. -/
def mk_early_spawn_task (ty : NodeType) (c : DFPNNode) : Task :=
  { player := c.player, opponent := c.opponent, root_move := 0,
    priority := spawn_priority ty c + 4000, eval_score := c.eval_score,
    is_root_task := false, depth := c.depth, node_type := c.ntype,
    generation := 3 }

/-- The Mid-Search Spawn task built every 50 iterations of the inner loop
(source lines 2957–2967): `root_move` is likewise the literal `0`. -/
def mk_mid_search_spawn_task (ty : NodeType) (c : DFPNNode) : Task :=
  { player := c.player, opponent := c.opponent, root_move := 0,
    priority := spawn_priority ty c + 3000, eval_score := c.eval_score,
    is_root_task := false, depth := c.depth, node_type := c.ntype,
    generation := 5 }

/-- The regular child subtask built by `spawn_child_tasks`
(source lines 3208–3218): inherits `parent_task->root_move`. -/
def mk_spawn_child_task (parent : Task) (ty : NodeType) (c : DFPNNode) : Task :=
  { player := c.player, opponent := c.opponent, root_move := parent.root_move,
    priority := spawn_priority ty c + 5000 - parent.generation * 1000,
    eval_score := c.eval_score, is_root_task := false, depth := c.depth,
    node_type := c.ntype, generation := parent.generation + 1 }

/-- The root-task-split subtask (source lines 3441–3451): inherits
`task->root_move` and gets generation 1 with a `+10000` priority boost. -/
def mk_root_split_task (task : Task) (ty : NodeType) (c : DFPNNode) : Task :=
  { player := c.player, opponent := c.opponent, root_move := task.root_move,
    priority := spawn_priority ty c + 10000, eval_score := c.eval_score,
    is_root_task := false, depth := c.depth, node_type := c.ntype,
    generation := 1 }

/-! ## Final aggregation in `solve_endgame` (source lines 4280–4331) -/

/-- The result-scanning loop: `final_result` starts `UNKNOWN`; a `WIN` entry
sets it and breaks; a `DRAW` entry sets it when it is not already `WIN`. -/
def agg_loop (results : List Result) (acc : Result) : Result :=
  match results with
  | [] => acc
  | r :: rs =>
    if r = .win then .win
    else agg_loop rs (if r = .draw ∧ acc ≠ .win then .draw else acc)

/-- Aggregation of the per-root-move results when `found_win` is not set:
the scanning loop followed by the all-LOSE promotion
(`final_result == UNKNOWN && lose_count == n_moves`). -/
def solve_endgame_aggregate (results : List Result) : Result :=
  let f := agg_loop results .unknown
  if f = .unknown ∧ results.count .lose = results.length then .lose else f

/-- The aggregation rule exactly as the claim words it: Win if some Win;
otherwise Draw only if some Draw and no Unknown; otherwise Lose iff all
Lose; Unknown in all remaining cases.  Used only for comparison. -/
def claimed_aggregate (results : List Result) : Result :=
  if Result.win ∈ results then .win
  else if Result.draw ∈ results ∧ Result.unknown ∉ results then .draw
  else if ∀ r ∈ results, r = .lose then .lose
  else .unknown

/-! ## Position-file parsing and the process exit code -/

/-- Board-string scan of `parse_pos_file`: bit `i` of black is set on
`X`/`x`/`*`, of white on `O`/`o`; other characters leave the square empty.
Indices past the end of the line read the C string terminator. -/
def parse_board (board : List Char) : Nat × Nat :=
  (List.range 64).foldl
    (fun bw i =>
      let ch := board.getD i '\x00'
      if ch = 'X' ∨ ch = 'x' ∨ ch = '*' then (bw.1 ||| shl64 1 i, bw.2)
      else if ch = 'O' ∨ ch = 'o' then (bw.1, bw.2 ||| shl64 1 i)
      else bw)
    (0, 0)

/-- `parse_pos_file` on the two text lines: fails only when the first
character of the turn line is not `B`/`b`/`W`/`w`.  The returned flag is
`true` for black to move. -/
def parse_pos_file (board turn : List Char) : Option (Nat × Nat × Bool) :=
  let bw := parse_board board
  let t := turn.getD 0 '\x00'
  if t = 'B' ∨ t = 'b' then some (bw.1, bw.2, true)
  else if t = 'W' ∨ t = 'w' then some (bw.1, bw.2, false)
  else none

/-- The exit code produced by `main`: `1` when the position file is missing
or fails to parse (the only `return 1` paths after argument checking), and
`0` at the end of `main` — reached for every `Result` returned by
`solve_endgame`, including `RESULT_UNKNOWN`. -/
def main_exit_code (file : Option (List Char × List Char)) (result : Result) : Nat :=
  match file with
  | none => 1
  | some (board, turn) =>
    match parse_pos_file board turn with
    | none => 1
    | some _ =>
      match result with
      | _ => 0

/-! ## The per-worker LocalHeap (source lines 684–753) -/

/-- The sift-up loop of `local_heap_push`: walk from slot `i` toward the
root, copying each larger-priority parent down, and place `t` at the final
hole.  The heap array is the list prefix of length `size`. -/
def heap_sift_up (l : List Task) (i : Nat) (t : Task) : List Task :=
  if i = 0 then l.set 0 t
  else
    let p := (i - 1) / 2
    if t.priority ≤ (l.getD p default).priority then l.set i t
    else heap_sift_up (l.set i (l.getD p default)) p t
termination_by i
decreasing_by
  have h1 : (i - 1) / 2 ≤ i - 1 := Nat.div_le_self _ _
  omega

/-- `local_heap_push`: fail (`false` in C, `none` here, with no mutation)
when the heap is full, otherwise append at index `size` and sift up. -/
def local_heap_push (cap : Nat) (l : List Task) (t : Task) : Option (List Task) :=
  if cap ≤ l.length then none
  else some (heap_sift_up (l ++ [t]) l.length t)

/-- The sift-down loop of `local_heap_pop`: walk from the root hole toward
the leaves, copying the larger child up while it beats `t`, and place `t`
at the final hole. -/
def heap_sift_down (l : List Task) (i : Nat) (t : Task) : List Task :=
  let n := l.length
  let c := 2 * i + 1
  if c < n then
    let c2 := if c + 1 < n ∧ (l.getD c default).priority < (l.getD (c + 1) default).priority
              then c + 1 else c
    if (l.getD c2 default).priority ≤ t.priority then l.set i t
    else heap_sift_down (l.set i (l.getD c2 default)) c2 t
  else l.set i t
termination_by l.length - i
decreasing_by
  simp only [List.length_set]
  split <;> omega

/-- `local_heap_pop`: return the root; move the last element out, shrink the
array, and sift it down from the root when the heap stays nonempty. -/
def local_heap_pop (l : List Task) : Option (Task × List Task) :=
  match l with
  | [] => none
  | top :: rest =>
    let n := rest.length
    let l0 := (top :: rest).take n
    if n = 0 then some (top, [])
    else some (top, heap_sift_down l0 0 ((top :: rest).getD n default))

/-- The binary max-heap property maintained by the LocalHeap: no element's
priority exceeds its parent's. -/
def IsMaxHeap (l : List Task) : Prop :=
  ∀ j, 0 < j → j < l.length →
    (l.getD j default).priority ≤ (l.getD ((j - 1) / 2) default).priority

/-- Heap states reachable from the empty heap by owner pushes and pops. -/
inductive HeapReachable (cap : Nat) : List Task → Prop where
  | empty : HeapReachable cap []
  | push (l l' : List Task) (t : Task) : HeapReachable cap l →
      local_heap_push cap l t = some l' → HeapReachable cap l'
  | pop (l l' : List Task) (t : Task) : HeapReachable cap l →
      local_heap_pop l = some (t, l') → HeapReachable cap l'

/-! ## Board symmetries and canonical hashing (source lines 1078–1148, 1870–1902) -/

/-- First delta stage of `horizontal_mirror` (swap adjacent bits). -/
def hStage1 (b : Nat) : Nat :=
  ((b >>> 1) &&& 0x5555555555555555) ||| (shl64 b 1 &&& 0xAAAAAAAAAAAAAAAA)

/-- Second delta stage of `horizontal_mirror` (swap adjacent bit pairs). -/
def hStage2 (b : Nat) : Nat :=
  ((b >>> 2) &&& 0x3333333333333333) ||| (shl64 b 2 &&& 0xCCCCCCCCCCCCCCCC)

/-- Third delta stage of `horizontal_mirror` (swap nibbles). -/
def hStage4 (b : Nat) : Nat :=
  ((b >>> 4) &&& 0x0F0F0F0F0F0F0F0F) ||| (shl64 b 4 &&& 0xF0F0F0F0F0F0F0F0)

/-- `horizontal_mirror`: reverse the bits inside every byte (mirror columns). -/
def horizontal_mirror (b : Nat) : Nat := hStage4 (hStage2 (hStage1 b))

/-- Semantics of `__builtin_bswap64`: reverse the byte order. -/
def bswap_64 (b : Nat) : Nat :=
  ((b >>> 56) &&& 0xff) ||| (((b >>> 48) &&& 0xff) <<< 8) |||
  (((b >>> 40) &&& 0xff) <<< 16) ||| (((b >>> 32) &&& 0xff) <<< 24) |||
  (((b >>> 24) &&& 0xff) <<< 32) ||| (((b >>> 16) &&& 0xff) <<< 40) |||
  (((b >>> 8) &&& 0xff) <<< 48) ||| ((b &&& 0xff) <<< 56)

/-- `vertical_mirror`: byte swap (mirror rows). -/
def vertical_mirror (b : Nat) : Nat := bswap_64 b

/-- First delta-swap stage of `transpose` (distance 7). -/
def tStage7 (b : Nat) : Nat :=
  let t := (b ^^^ (b >>> 7)) &&& 0x00aa00aa00aa00aa
  b ^^^ t ^^^ shl64 t 7

/-- Second delta-swap stage of `transpose` (distance 14). -/
def tStage14 (b : Nat) : Nat :=
  let t := (b ^^^ (b >>> 14)) &&& 0x0000cccc0000cccc
  b ^^^ t ^^^ shl64 t 14

/-- Third delta-swap stage of `transpose` (distance 28). -/
def tStage28 (b : Nat) : Nat :=
  let t := (b ^^^ (b >>> 28)) &&& 0x00000000f0f0f0f0
  b ^^^ t ^^^ shl64 t 28

/-- `transpose`: reflect the board across the main diagonal. -/
def transpose (b : Nat) : Nat := tStage28 (tStage14 (tStage7 b))

/-- `board_symmetry`: apply the horizontal mirror on bit 0 of `s`, the
vertical mirror on bit 1 and the transpose on bit 2, to both boards. -/
def board_symmetry (s : Nat) (p o : Nat) : Nat × Nat :=
  let p1 := if s &&& 1 ≠ 0 then horizontal_mirror p else p
  let o1 := if s &&& 1 ≠ 0 then horizontal_mirror o else o
  let p2 := if s &&& 2 ≠ 0 then vertical_mirror p1 else p1
  let o2 := if s &&& 2 ≠ 0 then vertical_mirror o1 else o1
  let p3 := if s &&& 4 ≠ 0 then transpose p2 else p2
  let o3 := if s &&& 4 ≠ 0 then transpose o2 else o2
  (p3, o3)

/-- `board_lesser`: lexicographic comparison of `(player, opponent)` pairs. -/
def board_lesser (p1 o1 p2 o2 : Nat) : Bool :=
  p1 < p2 || (p1 == p2 && o1 < o2)

/-- `board_unique_scalar`: run `s = 1 .. 7`, keeping the lexicographically
smallest symmetric image (the `best_sym` index returned by the C function is
not used by `hash_position` and is omitted). -/
def board_unique_scalar (p o : Nat) : Nat × Nat :=
  (List.range 7).foldl
    (fun best s =>
      let sym := board_symmetry (s + 1) p o
      if board_lesser sym.1 sym.2 best.1 best.2 then sym else best)
    (p, o)

/-- `hash_position`: canonicalize, then XOR the Zobrist words selected by the
set bits of the two canonical boards.  The table contents (seeded by `srand`
in the C source) are abstracted as a parameter: the symmetry invariance holds
for every table.  `zob false i` is `zobrist_table[0][i]` (player bits),
`zob true i` is `zobrist_table[1][i]` (opponent bits). -/
def hash_position (zob : Bool → Nat → Nat) (P O : Nat) : Nat :=
  let u := board_unique_scalar P O
  (List.range 64).foldl
    (fun h i =>
      let h1 := if u.1.testBit i then h ^^^ zob false i else h
      if u.2.testBit i then h1 ^^^ zob true i else h1)
    0

/-- Composition table of the 8 board symmetries (a proof device, not source
code): applying `board_symmetry s` and then `board_symmetry t` equals
`board_symmetry (symCompose t s)`.  Derived from the dihedral relations
`H∘T = T∘V`, `V∘T = T∘H`, `H∘V = V∘H` and the involutivity of `H`, `V`, `T`. -/
def symCompose (t s : Nat) : Nat :=
  let t1 := t &&& 1
  let t2 := (t >>> 1) &&& 1
  let t4 := (t >>> 2) &&& 1
  let s1 := s &&& 1
  let s2 := (s >>> 1) &&& 1
  let s4 := (s >>> 2) &&& 1
  if s4 = 0 then (t1 ^^^ s1) + 2 * (t2 ^^^ s2) + 4 * t4
  else (t2 ^^^ s1) + 2 * (t1 ^^^ s2) + 4 * (t4 ^^^ 1)

/-! # Theorems -/

/-! ## C3: root_move inheritance across the four spawn sites -/

/-- C3 counterexample: an Early Spawn (and likewise a Mid-Search Spawn)
subtask carries `root_move = 0` no matter what the ancestor root task's
`root_move` is — here an ancestor playing root move 5 — so the claimed
inheritance fails on those two paths. -/
theorem early_spawn_root_move_is_zero :
    (mk_early_spawn_task .or_node { ntype := .and_node, depth := 9 }).root_move = 0 ∧
    (mk_mid_search_spawn_task .or_node { ntype := .and_node, depth := 9 }).root_move = 0 ∧
    ({ root_move := 5 : Task }).root_move ≠
      (mk_early_spawn_task .or_node { ntype := .and_node, depth := 9 }).root_move := by
  refine ⟨rfl, rfl, by decide⟩

/-- C3 amended: subtasks built by `spawn_child_tasks` and by the root-task
split inherit the ancestor task's `root_move`; subtasks built by the Early
Spawn and by the Mid-Search Spawn always carry `root_move = 0`. -/
theorem subtask_root_move_spec (parent : Task) (ty : NodeType) (c : DFPNNode) :
    (mk_spawn_child_task parent ty c).root_move = parent.root_move ∧
    (mk_root_split_task parent ty c).root_move = parent.root_move ∧
    (mk_early_spawn_task ty c).root_move = 0 ∧
    (mk_mid_search_spawn_task ty c).root_move = 0 :=
  ⟨rfl, rfl, rfl, rfl⟩

/-! ## C5: the threshold rule of the inner loop -/

/-- C5 counterexample: at an AND node with `Tpn = 10`, `Tdn = 20`, `pn = 3`,
`dn = 4` and selected child `pn = 1`, `dn = 2`, the source assigns
`(child.Tpn, child.Tdn) = (10, 18)` whereas the claimed mirror rule demands
`(20, 8)`. -/
theorem and_threshold_not_mirror :
    child_thresholds .and_node 3 4 10 20 1 2 = (10, 18) ∧
    claimed_child_thresholds .and_node 3 4 10 20 1 2 = (20, 8) ∧
    child_thresholds .and_node 3 4 10 20 1 2 ≠
      claimed_child_thresholds .and_node 3 4 10 20 1 2 := by
  refine ⟨by decide, by decide, by decide⟩

/-- C5 amended: for an OR node the child thresholds follow the claimed rule
`child.Tpn = node.Tdn - node.dn + child.dn`, `child.Tdn = node.Tpn`; for an
AND node the source does not take the mirror image but instead copies
`child.Tpn = node.Tpn` and sets `child.Tdn = node.Tdn - node.dn + child.dn`,
reusing the dn-side quantities.  Stated over mathematical naturals; the
hypotheses bound the values so the `uint32_t` arithmetic cannot wrap. -/
theorem child_thresholds_spec (npn ndn nTpn nTdn cpn cdn : Nat)
    (h1 : ndn ≤ nTdn) (h2 : nTdn ≤ PN_INF + 1) (h3 : cdn ≤ DN_INF) :
    child_thresholds .or_node npn ndn nTpn nTdn cpn cdn = (nTdn - ndn + cdn, nTpn) ∧
    child_thresholds .and_node npn ndn nTpn nTdn cpn cdn = (nTpn, nTdn - ndn + cdn) := by
  have key : add32 (sub32 nTdn ndn) cdn = nTdn - ndn + cdn := by
    unfold add32 sub32 M32
    unfold PN_INF at h2
    unfold DN_INF at h3
    omega
  exact ⟨by simp [child_thresholds, key], by simp [child_thresholds, key]⟩

/-- Witness for the amended C5 theorem at `Tpn = 10`, `Tdn = 20`, `dn = 4`,
`child.dn = 2`. -/
theorem child_thresholds_spec_witness :
    child_thresholds .or_node 3 4 10 20 1 2 = (18, 10) ∧
    child_thresholds .and_node 3 4 10 20 1 2 = (10, 18) :=
  child_thresholds_spec 3 4 10 20 1 2 (by decide) (by decide) (by decide)

/-! ## C9: process exit codes -/

/-- C9 counterexample: on a successfully parsed position, `main` returns `0`
even when the solver's result is `RESULT_UNKNOWN` (timeout); the claimed exit
code `2` is never produced. -/
theorem unknown_result_exits_zero :
    main_exit_code (some (List.replicate 64 'X', ['B'])) .unknown = 0 ∧
    main_exit_code (some (List.replicate 64 'X', ['B'])) .unknown ≠ 2 := by
  refine ⟨by decide, by decide⟩

/-- C9 amended: the exit code is `0` whenever the position file parses —
for every result, proven or Unknown — `1` when it fails to parse or is
missing, and never `2`. -/
theorem main_exit_code_spec (b t : List Char) (r : Result)
    (f : Option (List Char × List Char)) :
    ((parse_pos_file b t).isSome → main_exit_code (some (b, t)) r = 0) ∧
    (parse_pos_file b t = none → main_exit_code (some (b, t)) r = 1) ∧
    main_exit_code none r = 1 ∧
    main_exit_code f r ≠ 2 := by
  refine ⟨?_, ?_, rfl, ?_⟩
  · intro h
    cases hp : parse_pos_file b t with
    | none => rw [hp] at h; simp at h
    | some v => simp [main_exit_code, hp]
  · intro h
    simp [main_exit_code, h]
  · cases f with
    | none => simp [main_exit_code]
    | some v =>
      obtain ⟨vb, vt⟩ := v
      simp only [main_exit_code]
      cases hp : parse_pos_file vb vt <;> simp [hp]

/-- Witness for the amended C9 theorem on a concrete parsed file with an
Unknown result. -/
theorem main_exit_code_spec_witness :
    (parse_pos_file (List.replicate 64 'X') ['B']).isSome ∧
    main_exit_code (some (List.replicate 64 'X', ['B'])) .unknown = 0 :=
  ⟨by decide,
   (main_exit_code_spec (List.replicate 64 'X') ['B'] .unknown none).1 (by decide)⟩

/-! ## C4: final aggregation in `solve_endgame` -/

/-- C4 counterexample: with per-move results `[Draw, Unknown]` the source
reports `Draw`, while the claim (Draw only when no move is Unknown) demands
`Unknown`. -/
theorem aggregate_draw_despite_unknown :
    solve_endgame_aggregate [.draw, .unknown] = .draw ∧
    claimed_aggregate [.draw, .unknown] = .unknown ∧
    solve_endgame_aggregate [.draw, .unknown] ≠
      claimed_aggregate [.draw, .unknown] := by
  refine ⟨by decide, by decide, by decide⟩

lemma agg_loop_from_draw (rs : List Result) :
    agg_loop rs .draw = if Result.win ∈ rs then .win else .draw := by
  induction rs with
  | nil => simp [agg_loop]
  | cons r rs ih =>
    cases r with
    | win => simp [agg_loop]
    | draw => simp [agg_loop, ih, List.mem_cons]
    | unknown => simp [agg_loop, ih, List.mem_cons]
    | lose => simp [agg_loop, ih, List.mem_cons]

lemma agg_loop_from_unknown (rs : List Result) :
    agg_loop rs .unknown =
      if Result.win ∈ rs then .win
      else if Result.draw ∈ rs then .draw
      else .unknown := by
  induction rs with
  | nil => simp [agg_loop]
  | cons r rs ih =>
    cases r with
    | win => simp [agg_loop]
    | draw => simp [agg_loop, agg_loop_from_draw, List.mem_cons]
    | unknown => simp [agg_loop, ih, List.mem_cons]
    | lose => simp [agg_loop, ih, List.mem_cons]

/-- C4 amended: the aggregation is Win if some move is Win; otherwise Draw if
some move is Draw — even when other moves are still Unknown; otherwise Lose
iff every move is Lose; otherwise Unknown. -/
theorem solve_endgame_aggregate_spec (rs : List Result) :
    solve_endgame_aggregate rs =
      if Result.win ∈ rs then .win
      else if Result.draw ∈ rs then .draw
      else if ∀ r ∈ rs, r = .lose then .lose
      else .unknown := by
  unfold solve_endgame_aggregate
  rw [agg_loop_from_unknown]
  by_cases hw : Result.win ∈ rs
  · rw [if_pos hw, if_neg (fun h => nomatch h.1), if_pos hw]
  · by_cases hd : Result.draw ∈ rs
    · rw [if_neg hw, if_pos hd, if_neg (fun h => nomatch h.1), if_neg hw, if_pos hd]
    · by_cases hl : rs.count .lose = rs.length
      · have hall : ∀ x ∈ rs, x = Result.lose := by
          intro x hx
          exact (List.count_eq_length.mp hl x hx).symm
        rw [if_neg hw, if_neg hd, if_pos hall, if_pos ⟨rfl, hl⟩, if_neg hw, if_neg hd]
      · have hall : ¬ ∀ x ∈ rs, x = Result.lose := by
          intro hc
          exact hl (List.count_eq_length.mpr (fun x hx => (hc x hx).symm))
        rw [if_neg hw, if_neg hd, if_neg hall, if_neg (fun h => hl h.2), if_neg hw,
            if_neg hd]

/-! ## C6: TT store-then-probe round trip -/

lemma toInt8_of_small (d : Int) (h0 : 0 ≤ d) (h1 : d ≤ 127) : toInt8 d = d := by
  unfold toInt8
  omega

/-- Shared helper: a sequential `tt_store` followed by `tt_probe` on the same
key at depth `d' ≤ d` observes exactly the stored data, provided the occupant
of the slot allowed the overwrite (`entry->depth <= depth`). -/
lemma tt_store_then_probe (tt : TTState) (key : Nat) (d d' : Int) (pn dn : Nat)
    (r : Result) (ev : Int) (h0 : 0 ≤ d) (h1 : d ≤ 127) (h2 : d' ≤ d)
    (hocc : (tt.entries (key &&& tt.mask)).depth ≤ d) :
    tt_probe (tt_store tt key d pn dn r ev) key d' = some (pn, dn, r, ev) := by
  unfold tt_store
  rw [if_pos hocc]
  unfold tt_probe setEntry
  simp [toInt8_of_small d h0 h1, h2]

/-- C6: the sequential store/probe round trip.  If the slot's occupant has
stored depth at most `d`, then `tt_store(key, d, pn, dn, result, eval)`
followed by `tt_probe(key, d')` with `d' ≤ d` hits and returns exactly the
stored quadruple; and when the occupant's depth exceeds the incoming depth,
`tt_store` leaves the table unchanged.  The depth bounds make the `int8_t`
narrowing of the stored depth exact (search depths are at most 64). -/
theorem tt_roundtrip_spec (tt : TTState) (key : Nat) (d d' : Int) (pn dn : Nat)
    (r : Result) (ev : Int) (h0 : 0 ≤ d) (h1 : d ≤ 127) (h2 : d' ≤ d) :
    ((tt.entries (key &&& tt.mask)).depth ≤ d →
      tt_probe (tt_store tt key d pn dn r ev) key d' = some (pn, dn, r, ev)) ∧
    (d < (tt.entries (key &&& tt.mask)).depth →
      tt_store tt key d pn dn r ev = tt) := by
  constructor
  · intro hocc
    exact tt_store_then_probe tt key d d' pn dn r ev h0 h1 h2 hocc
  · intro hgt
    unfold tt_store
    rw [if_neg (by omega)]

/-- Witness for C6 on an empty 256-slot table with `d = 5`, `d' = 3`. -/
theorem tt_roundtrip_spec_witness :
    ((0 : Int) ≤ 5 ∧ (5 : Int) ≤ 127 ∧ (3 : Int) ≤ 5) ∧
    (({ mask := 0xff, entries := fun _ => {} } : TTState).entries
        (12345 &&& 0xff)).depth ≤ 5 ∧
    tt_probe (tt_store { mask := 0xff, entries := fun _ => {} } 12345 5 7 9 .win 11)
      12345 3 = some (7, 9, .win, 11) :=
  ⟨⟨by decide, by decide, by decide⟩, by decide,
    (tt_roundtrip_spec { mask := 0xff, entries := fun _ => {} } 12345 5 3 7 9 .win 11
      (by decide) (by decide) (by decide)).1 (by decide)⟩

/-! ## C7: `make_move` occupancy (code bug) -/

/-- C7 failing input: `P = 0x40020` (discs on squares 5 and 18),
`O = 0x400` (disc on square 10), square 2 the unique legal move (via the
vertical line 2–10–18).  The Othello rule flips exactly the opponent disc on
square 10.  The source's `flip_discs` instead returns `{2, 3, 4}` — the move
square itself and two empty squares — because its horizontal/vertical
outflank branches test the nearest *occupied* square (`PO`) rather than the
end of the opponent run: `make_move` then grows the occupancy by 3 discs and
leaves squares 2, 3, 4 present on both bitboards at once. -/
theorem make_move_occupancy_bug :
    (0x40020 : Nat) &&& 0x400 = 0 ∧
    (get_moves 0x40020 0x400).testBit 2 = true ∧
    flip_discs 0x40020 0x400 2 = 0x1c ∧
    (0x400 : Nat) &&& 0x1c = 0 ∧
    popcount64 ((make_move 0x40020 0x400 2).1 ||| (make_move 0x40020 0x400 2).2) =
      popcount64 ((0x40020 : Nat) ||| 0x400) + 3 ∧
    (make_move 0x40020 0x400 2).1 &&& (make_move 0x40020 0x400 2).2 = 0x1c := by
  refine ⟨by decide, by decide, by decide, by decide, by decide, by decide⟩

/-! ## C2: terminal-leaf scoring -/

lemma popcount64_le_64 (b : Nat) : popcount64 b ≤ 64 := by
  unfold popcount64
  calc (List.range 64).countP (fun i => b.testBit i)
      ≤ (List.range 64).length := List.countP_le_length _
    _ = 64 := List.length_range 64

lemma countP_or_disjoint (l : List Nat) (p q : Nat → Bool)
    (h : ∀ i ∈ l, ¬(p i = true ∧ q i = true)) :
    l.countP (fun i => p i || q i) = l.countP p + l.countP q := by
  induction l with
  | nil => simp
  | cons a l ih =>
    have ha := h a (List.mem_cons_self a l)
    have hrest : ∀ i ∈ l, ¬(p i = true ∧ q i = true) :=
      fun i hi => h i (List.mem_cons_of_mem a hi)
    simp only [List.countP_cons]
    rw [ih hrest]
    cases hp : p a <;> cases hq : q a <;> simp_all <;> omega

lemma popcount64_disjoint_add (P O : Nat) (h : P &&& O = 0) :
    popcount64 (P ||| O) = popcount64 P + popcount64 O := by
  unfold popcount64
  have h1 : ∀ i ∈ List.range 64, ((P ||| O).testBit i) =
      (P.testBit i || O.testBit i) := fun i _ => Nat.testBit_or P O i
  rw [List.countP_congr (fun i hi => by rw [h1 i hi])]
  apply countP_or_disjoint
  intro i _
  intro ⟨hp, hq⟩
  have : (P &&& O).testBit i = true := by
    rw [Nat.testBit_and, hp, hq]
    rfl
  rw [h] at this
  simp [Nat.zero_testBit] at this

/-- C2: at a terminal leaf (neither side has a legal move) the score credits
the empty squares to the winner, and `dfpn_solve_node` sets `pn`/`dn`/
`result` from its sign — Win/Lose/Draw at an OR node, inverted at an AND
node — marks the node proven, and stores the entry to the TT, where an
immediate probe at the same key and depth returns it. -/
theorem dfpn_terminal_spec (ty : NodeType) (node : DFPNNode)
    (hm : get_moves node.player node.opponent = 0)
    (hm2 : get_moves node.opponent node.player = 0)
    (hd : node.player &&& node.opponent = 0) :
    (popcount64 node.opponent < popcount64 node.player →
      get_final_score node.player node.opponent =
        (popcount64 node.player : Int) - popcount64 node.opponent +
          (64 - popcount64 node.player - popcount64 node.opponent)) ∧
    (popcount64 node.player < popcount64 node.opponent →
      get_final_score node.player node.opponent =
        -((popcount64 node.opponent : Int) - popcount64 node.player +
          (64 - popcount64 node.player - popcount64 node.opponent))) ∧
    (popcount64 node.player = popcount64 node.opponent →
      get_final_score node.player node.opponent = 0) ∧
    (ty = .or_node → popcount64 node.opponent < popcount64 node.player →
      dfpn_terminal ty node =
        { node with result := .win, pn := 0, dn := DN_INF, is_proven := true }) ∧
    (ty = .or_node → popcount64 node.player < popcount64 node.opponent →
      dfpn_terminal ty node =
        { node with result := .lose, pn := PN_INF, dn := 0, is_proven := true }) ∧
    (ty = .or_node → popcount64 node.player = popcount64 node.opponent →
      dfpn_terminal ty node =
        { node with result := .draw, pn := PN_INF, dn := DN_INF, is_proven := true }) ∧
    (ty = .and_node → popcount64 node.opponent < popcount64 node.player →
      dfpn_terminal ty node =
        { node with result := .lose, pn := PN_INF, dn := 0, is_proven := true }) ∧
    (ty = .and_node → popcount64 node.player < popcount64 node.opponent →
      dfpn_terminal ty node =
        { node with result := .win, pn := 0, dn := DN_INF, is_proven := true }) ∧
    (ty = .and_node → popcount64 node.player = popcount64 node.opponent →
      dfpn_terminal ty node =
        { node with result := .draw, pn := PN_INF, dn := DN_INF, is_proven := true }) ∧
    (∀ (tt : TTState) (key : Nat), 0 ≤ node.depth → node.depth ≤ 127 →
      (tt.entries (key &&& tt.mask)).depth ≤ node.depth →
      tt_probe (tt_store tt key node.depth (dfpn_terminal ty node).pn
          (dfpn_terminal ty node).dn (dfpn_terminal ty node).result
          node.eval_score) key node.depth =
        some ((dfpn_terminal ty node).pn, (dfpn_terminal ty node).dn,
          (dfpn_terminal ty node).result, node.eval_score)) := by
  have hsum : popcount64 node.player + popcount64 node.opponent ≤ 64 := by
    rw [← popcount64_disjoint_add _ _ hd]
    exact popcount64_le_64 _
  have hgt : popcount64 node.opponent < popcount64 node.player →
      0 < get_final_score node.player node.opponent := by
    intro h
    unfold get_final_score
    rw [if_pos (by exact_mod_cast h)]
    push_cast
    omega
  have hlt : popcount64 node.player < popcount64 node.opponent →
      get_final_score node.player node.opponent < 0 := by
    intro h
    unfold get_final_score
    rw [if_neg (by push_cast; omega), if_pos (by exact_mod_cast h)]
    push_cast
    omega
  have heq : popcount64 node.player = popcount64 node.opponent →
      get_final_score node.player node.opponent = 0 := by
    intro h
    unfold get_final_score
    rw [if_neg (by push_cast; omega), if_neg (by push_cast; omega)]
  refine ⟨?_, ?_, heq, ?_, ?_, ?_, ?_, ?_, ?_, ?_⟩
  · intro h
    unfold get_final_score
    rw [if_pos (by exact_mod_cast h)]
  · intro h
    unfold get_final_score
    rw [if_neg (by push_cast; omega), if_pos (by exact_mod_cast h)]
  · intro hty h
    subst hty
    simp only [dfpn_terminal]
    rw [if_pos (hgt h)]
  · intro hty h
    subst hty
    simp only [dfpn_terminal]
    rw [if_neg (by have := hlt h; omega), if_pos (hlt h)]
  · intro hty h
    subst hty
    simp only [dfpn_terminal]
    rw [if_neg (by have := heq h; omega), if_neg (by have := heq h; omega)]
  · intro hty h
    subst hty
    simp only [dfpn_terminal]
    rw [if_pos (hgt h)]
  · intro hty h
    subst hty
    simp only [dfpn_terminal]
    rw [if_neg (by have := hlt h; omega), if_pos (hlt h)]
  · intro hty h
    subst hty
    simp only [dfpn_terminal]
    rw [if_neg (by have := heq h; omega), if_neg (by have := heq h; omega)]
  · intro tt key hd0 hd1 hocc
    exact tt_store_then_probe tt key node.depth node.depth _ _ _ _ hd0 hd1 le_rfl hocc

/-- Witness for C2: a finished board with a single disc for the side to move
(score `+64`), solved at an OR node: Win with `pn = 0`, `dn = INF`. -/
theorem dfpn_terminal_spec_witness :
    get_moves 1 0 = 0 ∧ get_moves 0 1 = 0 ∧ (1 : Nat) &&& 0 = 0 ∧
    dfpn_terminal .or_node { player := 1, opponent := 0 } =
      { player := 1, opponent := 0, result := .win, pn := 0, dn := DN_INF,
        is_proven := true } :=
  ⟨by decide, by decide, by decide,
    (dfpn_terminal_spec .or_node { player := 1, opponent := 0 }
      (by decide) (by decide) (by decide)).2.2.2.1 rfl (by decide)⟩

/-! ## C1: the OR/AND pn/dn update rule -/

lemma foldl_min_spec (l : List Nat) (B : Nat) :
    l.foldl min B ≤ B ∧ (∀ x ∈ l, l.foldl min B ≤ x) ∧
    (l.foldl min B = B ∨ l.foldl min B ∈ l) := by
  induction l generalizing B with
  | nil => simp
  | cons a l ih =>
    obtain ⟨h1, h2, h3⟩ := ih (min B a)
    refine ⟨le_trans h1 (min_le_left _ _), ?_, ?_⟩
    · intro x hx
      rcases List.mem_cons.mp hx with rfl | hx
      · exact le_trans h1 (min_le_right _ _)
      · exact h2 x hx
    · rcases h3 with h | h
      · rcases min_choice B a with hm | hm
        · exact Or.inl (by rw [List.foldl_cons, h, hm])
        · exact Or.inr (List.mem_cons.mpr (Or.inl (by rw [List.foldl_cons, h, hm])))
      · exact Or.inr (List.mem_cons_of_mem _ h)

/-- The clamped fold of `update_pn_dn` computes the saturated sum. -/
lemma foldl_satAdd (l : List Nat) (a : Nat) (ha : a ≤ DN_INF) :
    l.foldl satAdd a = min (a + l.sum) DN_INF := by
  induction l generalizing a with
  | nil =>
    simp only [List.foldl_nil, List.sum_nil, Nat.add_zero]
    unfold DN_INF at *
    omega
  | cons b l ih =>
    simp only [List.foldl_cons, List.sum_cons]
    by_cases h : DN_INF ≤ a + b
    · rw [show satAdd a b = DN_INF from by unfold satAdd; rw [if_pos h]]
      rw [ih DN_INF le_rfl]
      unfold DN_INF at *
      omega
    · rw [show satAdd a b = a + b from by unfold satAdd; rw [if_neg h]]
      rw [ih (a + b) (by unfold DN_INF at *; omega)]
      omega

/-- The min fold of `update_pn_dn` computes the minimum over the children,
provided the values are bounded by the initial accumulator. -/
lemma foldl_min_eq (l : List Nat) (B : Nat) (mp : Nat)
    (hb : ∀ x ∈ l, x ≤ B) (hmem : mp ∈ l) (hlb : ∀ x ∈ l, mp ≤ x) :
    l.foldl min B = mp := by
  obtain ⟨h1, h2, h3⟩ := foldl_min_spec l B
  apply le_antisymm (h2 mp hmem)
  rcases h3 with h | h
  · rw [h]; exact hb mp hmem
  · exact hlb _ h

/-- C1: `update_pn_dn` on a node with at least one child.  At an OR node the
new `pn` is the minimum of the children's `pn` (characterized by `mp`) and
the new `dn` is the children's `dn` sum saturated at `INF` (characterized by
`ms`); the promotion chain then sets Win when `pn = 0`, else Lose when
`dn = 0`, else Draw with `pn = dn = INF` when every child is proven and some
proven child is a Draw, else leaves `result`/`is_proven` untouched.  At an
AND node the same holds with the roles of `pn` and `dn` exchanged, the chain
now checking `dn = 0` (Lose) before `pn = 0` (Win).  The bound hypothesis
reflects that reachable `pn`/`dn` never exceed `INF`. -/
theorem update_pn_dn_spec (ty : NodeType) (node : DFPNNode)
    (children : List DFPNNode) (mp ms : Nat)
    (hne : children ≠ [])
    (hbound : ∀ c ∈ children, c.pn ≤ PN_INF ∧ c.dn ≤ DN_INF)
    (hor : ty = .or_node →
      (mp ∈ children.map (fun c => c.pn) ∧ (∀ c ∈ children, mp ≤ c.pn)) ∧
      ms = min ((children.map (fun c => c.dn)).sum) DN_INF)
    (hand : ty = .and_node →
      (mp ∈ children.map (fun c => c.dn) ∧ (∀ c ∈ children, mp ≤ c.dn)) ∧
      ms = min ((children.map (fun c => c.pn)).sum) PN_INF) :
    (ty = .or_node →
      (mp = 0 → update_pn_dn ty node children =
        { node with pn := 0, dn := ms, result := .win, is_proven := true }) ∧
      (mp ≠ 0 → ms = 0 → update_pn_dn ty node children =
        { node with pn := mp, dn := 0, result := .lose, is_proven := true }) ∧
      (mp ≠ 0 → ms ≠ 0 →
        (∀ c ∈ children, child_counted_proven c = true) →
        (∃ c ∈ children, child_counted_draw c = true) →
        update_pn_dn ty node children =
          { node with pn := PN_INF, dn := DN_INF, result := .draw, is_proven := true }) ∧
      (mp ≠ 0 → ms ≠ 0 →
        ¬((∀ c ∈ children, child_counted_proven c = true) ∧
          (∃ c ∈ children, child_counted_draw c = true)) →
        update_pn_dn ty node children = { node with pn := mp, dn := ms })) ∧
    (ty = .and_node →
      (mp = 0 → update_pn_dn ty node children =
        { node with pn := ms, dn := 0, result := .lose, is_proven := true }) ∧
      (mp ≠ 0 → ms = 0 → update_pn_dn ty node children =
        { node with pn := 0, dn := mp, result := .win, is_proven := true }) ∧
      (mp ≠ 0 → ms ≠ 0 →
        (∀ c ∈ children, child_counted_proven c = true) →
        (∃ c ∈ children, child_counted_draw c = true) →
        update_pn_dn ty node children =
          { node with pn := PN_INF, dn := DN_INF, result := .draw, is_proven := true }) ∧
      (mp ≠ 0 → ms ≠ 0 →
        ¬((∀ c ∈ children, child_counted_proven c = true) ∧
          (∃ c ∈ children, child_counted_draw c = true)) →
        update_pn_dn ty node children = { node with pn := ms, dn := mp })) := by
  have hemp : children.isEmpty = false := by
    cases children with
    | nil => exact absurd rfl hne
    | cons a l => rfl
  constructor
  · intro hty
    subst hty
    obtain ⟨⟨hmem, hlb⟩, hms⟩ := hor rfl
    have hbp : ∀ x ∈ children.map (fun c => c.pn), x ≤ PN_INF := by
      intro x hx
      obtain ⟨c, hc, rfl⟩ := List.mem_map.mp hx
      exact (hbound c hc).1
    have hlb2 : ∀ x ∈ children.map (fun c => c.pn), mp ≤ x := by
      intro x hx
      obtain ⟨c, hc, rfl⟩ := List.mem_map.mp hx
      exact hlb c hc
    have hmp : children.foldl (fun m c => min m c.pn) PN_INF = mp := by
      rw [← List.foldl_map]
      exact foldl_min_eq _ _ _ hbp hmem hlb2
    have hsm : children.foldl (fun s c => satAdd s c.dn) 0 = ms := by
      rw [show List.foldl (fun s c => satAdd s c.dn) 0 children =
            (children.map (fun c => c.dn)).foldl satAdd 0 from
          (List.foldl_map (fun c => c.dn) satAdd children 0).symm]
      rw [foldl_satAdd _ 0 (by unfold DN_INF; omega)]
      rw [hms]
      simp
    simp only [update_pn_dn, hemp, Bool.false_eq_true, if_false, hmp, hsm]
    refine ⟨?_, ?_, ?_, ?_⟩
    · intro h0
      subst h0
      rw [if_pos rfl]
    · intro h0 hs0
      subst hs0
      rw [if_neg h0, if_pos rfl]
    · intro h0 hs0 hall hdraw
      rw [if_neg h0, if_neg hs0, if_pos ?_]
      constructor
      · exact List.countP_eq_length.mpr hall
      · exact List.countP_pos_iff.mpr hdraw
    · intro h0 hs0 hnot
      rw [if_neg h0, if_neg hs0, if_neg ?_]
      intro ⟨hc, hp⟩
      exact hnot ⟨List.countP_eq_length.mp hc, List.countP_pos_iff.mp hp⟩
  · intro hty
    subst hty
    obtain ⟨⟨hmem, hlb⟩, hms⟩ := hand rfl
    have hbp : ∀ x ∈ children.map (fun c => c.dn), x ≤ DN_INF := by
      intro x hx
      obtain ⟨c, hc, rfl⟩ := List.mem_map.mp hx
      exact (hbound c hc).2
    have hlb2 : ∀ x ∈ children.map (fun c => c.dn), mp ≤ x := by
      intro x hx
      obtain ⟨c, hc, rfl⟩ := List.mem_map.mp hx
      exact hlb c hc
    have hmp : children.foldl (fun m c => min m c.dn) DN_INF = mp := by
      rw [← List.foldl_map]
      exact foldl_min_eq _ _ _ hbp hmem hlb2
    have hsm : children.foldl (fun s c => satAdd s c.pn) 0 = ms := by
      rw [show List.foldl (fun s c => satAdd s c.pn) 0 children =
            (children.map (fun c => c.pn)).foldl satAdd 0 from
          (List.foldl_map (fun c => c.pn) satAdd children 0).symm]
      rw [foldl_satAdd _ 0 (by unfold DN_INF; omega)]
      rw [hms]
      simp [PN_INF, DN_INF]
    simp only [update_pn_dn, hemp, Bool.false_eq_true, if_false, hmp, hsm]
    refine ⟨?_, ?_, ?_, ?_⟩
    · intro h0
      subst h0
      rw [if_pos rfl]
    · intro h0 hs0
      subst hs0
      rw [if_neg h0, if_pos rfl]
    · intro h0 hs0 hall hdraw
      rw [if_neg h0, if_neg hs0, if_pos ?_]
      constructor
      · exact List.countP_eq_length.mpr hall
      · exact List.countP_pos_iff.mpr hdraw
    · intro h0 hs0 hnot
      rw [if_neg h0, if_neg hs0, if_neg ?_]
      intro ⟨hc, hp⟩
      exact hnot ⟨List.countP_eq_length.mp hc, List.countP_pos_iff.mp hp⟩

/-- Witness for C1: an OR node with two unproven children `(pn, dn) = (2, 3)`
and `(5, 4)`: the update sets `pn = 2` (the min) and `dn = 7` (the sum) and
promotes nothing. -/
theorem update_pn_dn_spec_witness :
    update_pn_dn .or_node {} [{ pn := 2, dn := 3 }, { pn := 5, dn := 4 }] =
      { pn := 2, dn := 7 } :=
  ((update_pn_dn_spec .or_node {} [{ pn := 2, dn := 3 }, { pn := 5, dn := 4 }] 2 7
      (by decide) (by decide) (fun _ => by decide) (fun h => nomatch h)).1 rfl).2.2.2
    (by decide) (by decide) (by decide)

/-! ## C10: LocalHeap invariants -/

lemma getD_set_self (l : List Task) (i : Nat) (a : Task) (h : i < l.length) :
    (l.set i a).getD i default = a := by
  rw [List.getD_eq_getElem _ _ (by simpa using h)]
  simp

lemma getD_set_ne (l : List Task) (i j : Nat) (a : Task) (h : i ≠ j) :
    (l.set i a).getD j default = l.getD j default := by
  simp [List.getD_eq_getElem?_getD, List.getElem?_set_ne h]

lemma getD_append_lt (l : List Task) (a : Task) (j : Nat) (h : j < l.length) :
    (l ++ [a]).getD j default = l.getD j default := by
  simp [List.getD_eq_getElem?_getD, List.getElem?_append_left h]

lemma getD_append_last (l : List Task) (a : Task) :
    (l ++ [a]).getD l.length default = a := by
  simp [List.getD_eq_getElem?_getD, List.getElem?_append_right]

lemma getD_take_lt (l : List Task) (n j : Nat) (hj : j < n) :
    (l.take n).getD j default = l.getD j default := by
  simp [List.getD_eq_getElem?_getD, List.getElem?_take, hj]

/-- Correctness of the sift-up loop: if the array is a heap except possibly
at the hole `i`, the hole's children fit both under the hole's parent and
under `t`, then placing `t` along the ancestor path restores the full heap
property. -/
lemma sift_up_heap (i : Nat) : ∀ (l : List Task) (t : Task),
    i < l.length →
    (∀ j, 0 < j → j < l.length → j ≠ i → (j - 1) / 2 ≠ i →
      (l.getD j default).priority ≤ (l.getD ((j - 1) / 2) default).priority) →
    (0 < i → ∀ j, j < l.length → 0 < j → (j - 1) / 2 = i →
      (l.getD j default).priority ≤ (l.getD ((i - 1) / 2) default).priority) →
    (∀ j, j < l.length → 0 < j → (j - 1) / 2 = i →
      (l.getD j default).priority ≤ t.priority) →
    IsMaxHeap (heap_sift_up l i t) := by
  induction i using Nat.strong_induction_on with
  | _ i IH =>
    intro l t hb h1 h2 h3
    rw [heap_sift_up]
    by_cases hi : i = 0
    · subst hi
      rw [if_pos rfl]
      intro j hj0 hjlen
      rw [List.length_set] at hjlen
      rw [getD_set_ne _ _ _ _ (by omega)]
      by_cases hp : (j - 1) / 2 = 0
      · rw [hp, getD_set_self _ _ _ (by omega)]
        exact h3 j hjlen hj0 hp
      · rw [getD_set_ne _ _ _ _ (fun hh => hp hh.symm)]
        exact h1 j hj0 hjlen (by omega) hp
    · rw [if_neg hi]
      by_cases hle : t.priority ≤ (l.getD ((i - 1) / 2) default).priority
      · rw [if_pos hle]
        intro j hj0 hjlen
        rw [List.length_set] at hjlen
        by_cases hji : j = i
        · subst hji
          rw [getD_set_self _ _ _ (by omega)]
          rw [getD_set_ne _ _ _ _ (by omega)]
          exact hle
        · rw [getD_set_ne _ _ _ _ (fun hh => hji hh.symm)]
          by_cases hpj : (j - 1) / 2 = i
          · rw [hpj, getD_set_self _ _ _ (by omega)]
            exact h3 j hjlen hj0 hpj
          · rw [getD_set_ne _ _ _ _ (fun hh => hpj hh.symm)]
            exact h1 j hj0 hjlen hji hpj
      · rw [if_neg hle]
        have hplt : (i - 1) / 2 < i := by omega
        have hpb : (i - 1) / 2 < l.length := by omega
        apply IH _ hplt
        · rw [List.length_set]; exact hpb
        · -- heap away from the new hole
          intro j hj0 hjlen hjp hgpj
          rw [List.length_set] at hjlen
          by_cases hji : j = i
          · exact absurd (by omega : (j - 1) / 2 = (i - 1) / 2) hgpj
          · rw [getD_set_ne _ _ _ _ (fun hh => hji hh.symm)]
            by_cases hpj : (j - 1) / 2 = i
            · rw [hpj, getD_set_self _ _ _ (by omega)]
              exact h2 (by omega) j hjlen hj0 hpj
            · rw [getD_set_ne _ _ _ _ (fun hh => hpj hh.symm)]
              exact h1 j hj0 hjlen hji hpj
        · -- children of the new hole fit under its parent
          intro hp0 j hjlen hj0 hgpj
          rw [List.length_set] at hjlen
          have hgpi : ((i - 1) / 2 - 1) / 2 ≠ i := by omega
          rw [getD_set_ne l i (((i - 1) / 2 - 1) / 2) _ (fun hh => hgpi hh.symm)]
          have hstep : (l.getD ((i - 1) / 2) default).priority ≤
              (l.getD (((i - 1) / 2 - 1) / 2) default).priority :=
            h1 ((i - 1) / 2) hp0 hpb (by omega) (by omega)
          by_cases hji : j = i
          · subst hji
            rw [getD_set_self _ _ _ (by omega)]
            exact hstep
          · rw [getD_set_ne _ _ _ _ (fun hh => hji hh.symm)]
            have : (l.getD j default).priority ≤ (l.getD ((i - 1) / 2) default).priority := by
              have := h1 j hj0 hjlen hji (by omega)
              rwa [hgpj] at this
            exact le_trans this hstep
        · -- children of the new hole fit under t
          intro j hjlen hj0 hgpj
          rw [List.length_set] at hjlen
          by_cases hji : j = i
          · subst hji
            rw [getD_set_self _ _ _ (by omega)]
            omega
          · rw [getD_set_ne _ _ _ _ (fun hh => hji hh.symm)]
            have : (l.getD j default).priority ≤ (l.getD ((i - 1) / 2) default).priority := by
              have := h1 j hj0 hjlen hji (by omega)
              rwa [hgpj] at this
            omega

/-- Correctness of the sift-down loop: if the array is a heap except possibly
at the hole `i`, the hole's children fit under the hole's parent, and `t`
fits under that parent too, then placing `t` along the descent path restores
the full heap property.  `k` bounds the remaining path length. -/
lemma sift_down_heap (k : Nat) : ∀ (l : List Task) (i : Nat) (t : Task),
    l.length - i ≤ k →
    i < l.length →
    (∀ j, 0 < j → j < l.length → j ≠ i → (j - 1) / 2 ≠ i →
      (l.getD j default).priority ≤ (l.getD ((j - 1) / 2) default).priority) →
    (0 < i → ∀ j, j < l.length → 0 < j → (j - 1) / 2 = i →
      (l.getD j default).priority ≤ (l.getD ((i - 1) / 2) default).priority) →
    (0 < i → t.priority ≤ (l.getD ((i - 1) / 2) default).priority) →
    IsMaxHeap (heap_sift_down l i t) := by
  induction k with
  | zero =>
    intro l i t hk hb h1 h2 h3
    omega
  | succ k IH =>
    intro l i t hk hb h1 h2 h3
    rw [heap_sift_down]
    by_cases hc : 2 * i + 1 < l.length
    · rw [if_pos hc]
      by_cases hcc : 2 * i + 1 + 1 < l.length ∧
          (l.getD (2 * i + 1) default).priority <
            (l.getD (2 * i + 1 + 1) default).priority
      · rw [if_pos hcc]
        have hsib : ∀ j, j < l.length → 0 < j → (j - 1) / 2 = i →
            (l.getD j default).priority ≤ (l.getD (2 * i + 1 + 1) default).priority := by
          intro j hjlen hj0 hgpj
          have : j = 2 * i + 1 ∨ j = 2 * i + 1 + 1 := by omega
          rcases this with rfl | rfl
          · omega
          · exact le_refl _
        by_cases hle : (l.getD (2 * i + 1 + 1) default).priority ≤ t.priority
        · rw [if_pos hle]
          intro j hj0 hjlen
          rw [List.length_set] at hjlen
          by_cases hji : j = i
          · subst hji
            rw [getD_set_self _ _ _ (by omega)]
            rw [getD_set_ne _ _ _ _ (by omega)]
            exact h3 hj0
          · rw [getD_set_ne _ _ _ _ (fun hh => hji hh.symm)]
            by_cases hpj : (j - 1) / 2 = i
            · rw [hpj, getD_set_self _ _ _ (by omega)]
              exact le_trans (hsib j hjlen hj0 hpj) hle
            · rw [getD_set_ne _ _ _ _ (fun hh => hpj hh.symm)]
              exact h1 j hj0 hjlen hji hpj
        · rw [if_neg hle]
          apply IH
          · rw [List.length_set]; omega
          · rw [List.length_set]; omega
          · intro j hj0 hjlen hjc2 hgpjc2
            rw [List.length_set] at hjlen
            by_cases hji : j = i
            · rw [hji]
              rw [getD_set_self _ _ _ (by omega)]
              rw [getD_set_ne _ _ _ _ (by omega)]
              exact h2 (by omega) (2 * i + 1 + 1) (by omega) (by omega) (by omega)
            · rw [getD_set_ne _ _ _ _ (fun hh => hji hh.symm)]
              by_cases hpj : (j - 1) / 2 = i
              · rw [hpj, getD_set_self _ _ _ (by omega)]
                exact hsib j hjlen hj0 hpj
              · rw [getD_set_ne _ _ _ _ (fun hh => hpj hh.symm)]
                exact h1 j hj0 hjlen hji hpj
          · intro _ j hjlen hj0 hgpj
            rw [List.length_set] at hjlen
            have hji : j ≠ i := by omega
            rw [getD_set_ne _ _ _ _ (fun hh => hji hh.symm)]
            have hgpc2 : (2 * i + 1 + 1 - 1) / 2 = i := by omega
            rw [hgpc2, getD_set_self _ _ _ (by omega)]
            have := h1 j hj0 hjlen hji (by omega)
            rwa [hgpj] at this
          · intro _
            have hgpc2 : (2 * i + 1 + 1 - 1) / 2 = i := by omega
            rw [hgpc2, getD_set_self _ _ _ (by omega)]
            omega
      · rw [if_neg hcc]
        have hsib : ∀ j, j < l.length → 0 < j → (j - 1) / 2 = i →
            (l.getD j default).priority ≤ (l.getD (2 * i + 1) default).priority := by
          intro j hjlen hj0 hgpj
          have : j = 2 * i + 1 ∨ j = 2 * i + 1 + 1 := by omega
          rcases this with rfl | rfl
          · exact le_refl _
          · have : ¬ (l.getD (2 * i + 1) default).priority <
                (l.getD (2 * i + 1 + 1) default).priority := fun hlt => hcc ⟨hjlen, hlt⟩
            omega
        by_cases hle : (l.getD (2 * i + 1) default).priority ≤ t.priority
        · rw [if_pos hle]
          intro j hj0 hjlen
          rw [List.length_set] at hjlen
          by_cases hji : j = i
          · subst hji
            rw [getD_set_self _ _ _ (by omega)]
            rw [getD_set_ne _ _ _ _ (by omega)]
            exact h3 hj0
          · rw [getD_set_ne _ _ _ _ (fun hh => hji hh.symm)]
            by_cases hpj : (j - 1) / 2 = i
            · rw [hpj, getD_set_self _ _ _ (by omega)]
              exact le_trans (hsib j hjlen hj0 hpj) hle
            · rw [getD_set_ne _ _ _ _ (fun hh => hpj hh.symm)]
              exact h1 j hj0 hjlen hji hpj
        · rw [if_neg hle]
          apply IH
          · rw [List.length_set]; omega
          · rw [List.length_set]; omega
          · intro j hj0 hjlen hjc2 hgpjc2
            rw [List.length_set] at hjlen
            by_cases hji : j = i
            · rw [hji]
              rw [getD_set_self _ _ _ (by omega)]
              rw [getD_set_ne _ _ _ _ (by omega)]
              exact h2 (by omega) (2 * i + 1) (by omega) (by omega) (by omega)
            · rw [getD_set_ne _ _ _ _ (fun hh => hji hh.symm)]
              by_cases hpj : (j - 1) / 2 = i
              · rw [hpj, getD_set_self _ _ _ (by omega)]
                exact hsib j hjlen hj0 hpj
              · rw [getD_set_ne _ _ _ _ (fun hh => hpj hh.symm)]
                exact h1 j hj0 hjlen hji hpj
          · intro _ j hjlen hj0 hgpj
            rw [List.length_set] at hjlen
            have hji : j ≠ i := by omega
            rw [getD_set_ne _ _ _ _ (fun hh => hji hh.symm)]
            have hgpc2 : (2 * i + 1 - 1) / 2 = i := by omega
            rw [hgpc2, getD_set_self _ _ _ (by omega)]
            have := h1 j hj0 hjlen hji (by omega)
            rwa [hgpj] at this
          · intro _
            have hgpc2 : (2 * i + 1 - 1) / 2 = i := by omega
            rw [hgpc2, getD_set_self _ _ _ (by omega)]
            omega
    · rw [if_neg hc]
      intro j hj0 hjlen
      rw [List.length_set] at hjlen
      by_cases hji : j = i
      · subst hji
        rw [getD_set_self _ _ _ (by omega)]
        rw [getD_set_ne _ _ _ _ (by omega)]
        exact h3 hj0
      · rw [getD_set_ne _ _ _ _ (fun hh => hji hh.symm)]
        have hpj : (j - 1) / 2 ≠ i := by omega
        rw [getD_set_ne _ _ _ _ (fun hh => hpj hh.symm)]
        exact h1 j hj0 hjlen hji hpj

lemma push_some_heap (cap : Nat) (l : List Task) (t : Task) (l' : List Task)
    (hh : IsMaxHeap l) (hp : local_heap_push cap l t = some l') : IsMaxHeap l' := by
  unfold local_heap_push at hp
  by_cases hc : cap ≤ l.length
  · rw [if_pos hc] at hp
    exact absurd hp (by simp)
  · rw [if_neg hc] at hp
    have hl' := Option.some.inj hp
    subst hl'
    apply sift_up_heap
    · simp
    · intro j hj0 hjlen hji hgpj
      rw [List.length_append, List.length_cons, List.length_nil] at hjlen
      have hjl : j < l.length := by omega
      rw [getD_append_lt _ _ _ hjl, getD_append_lt _ _ _ (by omega)]
      exact hh j hj0 hjl
    · intro hi0 j hjlen hj0 hgpj
      rw [List.length_append, List.length_cons, List.length_nil] at hjlen
      omega
    · intro j hjlen hj0 hgpj
      rw [List.length_append, List.length_cons, List.length_nil] at hjlen
      omega

lemma pop_some_heap (l : List Task) (t : Task) (l' : List Task)
    (hh : IsMaxHeap l) (hp : local_heap_pop l = some (t, l')) : IsMaxHeap l' := by
  cases l with
  | nil => simp [local_heap_pop] at hp
  | cons top rest =>
    simp only [local_heap_pop] at hp
    by_cases hn : rest.length = 0
    · rw [if_pos hn] at hp
      have := Option.some.inj hp
      have hl' : l' = [] := congrArg Prod.snd this |>.symm
      subst hl'
      intro j hj0 hjlen
      simp at hjlen
    · rw [if_neg hn] at hp
      have := Option.some.inj hp
      have hl' : l' = heap_sift_down ((top :: rest).take rest.length) 0
          ((top :: rest).getD rest.length default) := congrArg Prod.snd this |>.symm
      subst hl'
      have hlen : ((top :: rest).take rest.length).length = rest.length := by
        simp
      apply sift_down_heap (((top :: rest).take rest.length).length)
      · exact le_refl _
      · rw [hlen]; omega
      · intro j hj0 hjlen hji hgpj
        rw [hlen] at hjlen
        rw [getD_take_lt _ _ _ hjlen, getD_take_lt _ _ _ (by omega)]
        exact hh j hj0 (by simp; omega)
      · intro hi0; omega
      · intro hi0; omega

lemma reachable_is_heap (cap : Nat) (l : List Task) (h : HeapReachable cap l) :
    IsMaxHeap l := by
  induction h with
  | empty => intro j hj0 hjlen; simp at hjlen
  | push l l' t hr hp ih => exact push_some_heap cap l t l' ih hp
  | pop l l' t hr hp ih => exact pop_some_heap l t l' ih hp

lemma heap_root_max (l : List Task) (hh : IsMaxHeap l) :
    ∀ j, j < l.length → (l.getD j default).priority ≤ (l.getD 0 default).priority := by
  intro j
  induction j using Nat.strong_induction_on with
  | _ j IH =>
    intro hj
    by_cases h0 : j = 0
    · subst h0; exact le_refl _
    · have h1 := hh j (by omega) hj
      have h2 := IH ((j - 1) / 2) (by omega) (by omega)
      omega

/-- C10: every LocalHeap state reachable from the empty heap by owner pushes
and pops satisfies the binary max-heap property on `Task.priority`;
`local_heap_pop` on a nonempty reachable heap returns a stored task of
maximal priority; and `local_heap_push` on a heap at capacity returns `none`
(the C function returns `false` before touching the array, so the stored
tasks are unchanged). -/
theorem local_heap_spec (cap : Nat) (l : List Task) (h : HeapReachable cap l) :
    IsMaxHeap l ∧
    (∀ t l', local_heap_pop l = some (t, l') →
      t ∈ l ∧ ∀ u ∈ l, u.priority ≤ t.priority) ∧
    (cap ≤ l.length → ∀ t, local_heap_push cap l t = none) := by
  have hh := reachable_is_heap cap l h
  refine ⟨hh, ?_, ?_⟩
  · intro t l' hp
    cases l with
    | nil => simp [local_heap_pop] at hp
    | cons top rest =>
      have ht : t = top := by
        simp only [local_heap_pop] at hp
        by_cases hn : rest.length = 0
        · rw [if_pos hn] at hp
          exact (congrArg Prod.fst (Option.some.inj hp)).symm
        · rw [if_neg hn] at hp
          exact (congrArg Prod.fst (Option.some.inj hp)).symm
      subst ht
      refine ⟨List.mem_cons_self t rest, ?_⟩
      intro u hu
      obtain ⟨j, hj, rfl⟩ := List.mem_iff_getElem.mp hu
      have hmax := heap_root_max _ hh j hj
      rw [List.getD_eq_getElem _ _ hj] at hmax
      exact hmax
  · intro hc t
    unfold local_heap_push
    rw [if_pos hc]

/-- Witness for C10: the singleton heap obtained by one push is reachable and
satisfies the heap property. -/
theorem local_heap_spec_witness :
    IsMaxHeap [({} : Task)] ∧
    (4 ≤ [({} : Task)].length → ∀ t, local_heap_push 4 [({} : Task)] t = none) :=
  have hr : HeapReachable 4 [({} : Task)] :=
    HeapReachable.push [] [({} : Task)] ({} : Task) HeapReachable.empty
      (by simp [local_heap_push, heap_sift_up])
  ⟨(local_heap_spec 4 [({} : Task)] hr).1, (local_heap_spec 4 [({} : Task)] hr).2.2⟩

/-! ## C8: symmetry invariance of canonical hashing -/

lemma shl64_testBit (x d i : Nat) (hi : i < 64) :
    (shl64 x d).testBit i = (decide (d ≤ i) && x.testBit (i - d)) := by
  unfold shl64 M64
  rw [Nat.testBit_mod_two_pow, Nat.testBit_shiftLeft]
  simp [hi]

/-- Bit-level behavior of one `horizontal_mirror` stage
`((b >>> d) & m) | ((b << d) & (m << d))` when `m` and `m << d` partition the
64 bits: the bit at `i` comes from `i + d` inside `m` and from `i - d`
outside. -/
lemma orSwap_testBit (m d b i : Nat) (hi : i < 64)
    (hdisj : m &&& shl64 m d = 0)
    (hcover : m ||| shl64 m d = 0xffffffffffffffff) :
    (((b >>> d) &&& m) ||| (shl64 b d &&& shl64 m d)).testBit i =
      b.testBit (if m.testBit i then i + d else i - d) := by
  have hff : (0xffffffffffffffff : Nat).testBit i = true := by
    have : (0xffffffffffffffff : Nat) = 2 ^ 64 - 1 := by norm_num
    rw [this, Nat.testBit_two_pow_sub_one]
    simpa using hi
  have hdisj' : (m.testBit i && (shl64 m d).testBit i) = false := by
    have := congrArg (fun x => Nat.testBit x i) hdisj
    simpa [Nat.testBit_and] using this
  have hcover' : (m.testBit i || (shl64 m d).testBit i) = true := by
    have := congrArg (fun x => Nat.testBit x i) hcover
    simpa [Nat.testBit_or, hff] using this
  rw [Nat.testBit_or, Nat.testBit_and, Nat.testBit_and, Nat.testBit_shiftRight,
    shl64_testBit _ _ _ hi]
  by_cases hmi : m.testBit i
  · rw [if_pos hmi]
    have hsh : (shl64 m d).testBit i = false := by
      rw [hmi] at hdisj'
      simpa using hdisj'
    rw [hmi, hsh]
    simp [Nat.add_comm d i]
  · rw [if_neg hmi]
    have hb : m.testBit i = false := by
      cases h : m.testBit i
      · rfl
      · exact absurd h hmi
    have hsh : (shl64 m d).testBit i = true := by
      rcases Bool.or_eq_true_iff.mp hcover' with h | h
      · exact absurd h hmi
      · exact h
    have hsh2 := hsh
    rw [shl64_testBit _ _ _ hi] at hsh2
    obtain ⟨hdle, hmid⟩ := Bool.and_eq_true_iff.mp hsh2
    rw [hb, hsh, hdle]
    simp

/-- Bit-level behavior of one `transpose` delta-swap stage
`b ^ t ^ (t << d)` with `t = (b ^ (b >> d)) & m`, for `m` disjoint from
`m << d`: bits inside `m` swap with their partner `d` higher, bits whose
partner lies `d` lower swap down, all others are untouched. -/
lemma deltaSwap_testBit (m d b i : Nat) (hi : i < 64)
    (hdisj : m &&& shl64 m d = 0) :
    (b ^^^ ((b ^^^ (b >>> d)) &&& m) ^^^ shl64 ((b ^^^ (b >>> d)) &&& m) d).testBit i =
      b.testBit (if m.testBit i then i + d
        else if d ≤ i ∧ m.testBit (i - d) then i - d else i) := by
  have hdisj' : (m.testBit i && (shl64 m d).testBit i) = false := by
    have := congrArg (fun x => Nat.testBit x i) hdisj
    simpa [Nat.testBit_and] using this
  rw [Nat.testBit_xor, Nat.testBit_xor, Nat.testBit_and, Nat.testBit_xor,
    Nat.testBit_shiftRight, shl64_testBit _ _ _ hi, Nat.testBit_and,
    Nat.testBit_xor, Nat.testBit_shiftRight]
  by_cases hmi : m.testBit i
  · rw [if_pos hmi]
    have hmd : (shl64 m d).testBit i = false := by
      rw [hmi] at hdisj'
      simpa using hdisj'
    rw [shl64_testBit _ _ _ hi] at hmd
    have h3 : (decide (d ≤ i) && ((b.testBit (i - d)).xor
        (b.testBit (d + (i - d))) && m.testBit (i - d))) = false := by
      rcases Bool.and_eq_false_iff.mp hmd with h | h
      · rw [h]
        simp
      · rw [h]
        simp
    rw [hmi, h3, Nat.add_comm d i]
    cases b.testBit i <;> cases b.testBit (i + d) <;> simp
  · rw [if_neg hmi]
    have hb : m.testBit i = false := by
      cases h : m.testBit i
      · rfl
      · exact absurd h hmi
    rw [hb]
    by_cases hlow : d ≤ i ∧ m.testBit (i - d)
    · rw [if_pos hlow]
      obtain ⟨h1, h2⟩ := hlow
      have hd : decide (d ≤ i) = true := by simpa using h1
      rw [h2, hd, Nat.add_comm d (i - d), Nat.sub_add_cancel h1]
      cases b.testBit i <;> cases b.testBit (i - d) <;> simp
    · rw [if_neg hlow]
      have h3 : (decide (d ≤ i) && ((b.testBit (i - d)).xor
          (b.testBit (d + (i - d))) && m.testBit (i - d))) = false := by
        by_cases hd : d ≤ i
        · have h2 : m.testBit (i - d) = false := by
            cases h : m.testBit (i - d)
            · rfl
            · exact absurd ⟨hd, h⟩ hlow
          rw [h2]
          simp
        · have : decide (d ≤ i) = false := by simpa using hd
          rw [this]
          simp
      rw [h3]
      cases b.testBit i <;> simp

lemma xor_lt_64 (i c : Nat) (hi : i < 64) (hc : c < 64) : i ^^^ c < 64 := by
  have h := Nat.xor_lt_two_pow (n := 6) (x := i) (y := c)
    (by norm_num; omega) (by norm_num; omega)
  norm_num at h
  omega

lemma hStage1_testBit (b i : Nat) (hi : i < 64) :
    (hStage1 b).testBit i = b.testBit (i ^^^ 1) := by
  have hm : (0xAAAAAAAAAAAAAAAA : Nat) = shl64 0x5555555555555555 1 := by decide
  unfold hStage1
  rw [hm, orSwap_testBit _ _ _ _ hi (by decide) (by decide)]
  have hidx : ∀ j, j < 64 →
      (if (0x5555555555555555 : Nat).testBit j then j + 1 else j - 1) = j ^^^ 1 := by decide
  rw [hidx i hi]

lemma hStage2_testBit (b i : Nat) (hi : i < 64) :
    (hStage2 b).testBit i = b.testBit (i ^^^ 2) := by
  have hm : (0xCCCCCCCCCCCCCCCC : Nat) = shl64 0x3333333333333333 2 := by decide
  unfold hStage2
  rw [hm, orSwap_testBit _ _ _ _ hi (by decide) (by decide)]
  have hidx : ∀ j, j < 64 →
      (if (0x3333333333333333 : Nat).testBit j then j + 2 else j - 2) = j ^^^ 2 := by decide
  rw [hidx i hi]

lemma hStage4_testBit (b i : Nat) (hi : i < 64) :
    (hStage4 b).testBit i = b.testBit (i ^^^ 4) := by
  have hm : (0xF0F0F0F0F0F0F0F0 : Nat) = shl64 0x0F0F0F0F0F0F0F0F 4 := by decide
  unfold hStage4
  rw [hm, orSwap_testBit _ _ _ _ hi (by decide) (by decide)]
  have hidx : ∀ j, j < 64 →
      (if (0x0F0F0F0F0F0F0F0F : Nat).testBit j then j + 4 else j - 4) = j ^^^ 4 := by decide
  rw [hidx i hi]

lemma horizontal_mirror_testBit (b i : Nat) (hi : i < 64) :
    (horizontal_mirror b).testBit i = b.testBit (i ^^^ 7) := by
  unfold horizontal_mirror
  rw [hStage4_testBit _ _ hi, hStage2_testBit _ _ (xor_lt_64 i 4 hi (by norm_num)),
    hStage1_testBit _ _ (xor_lt_64 _ 2 (xor_lt_64 i 4 hi (by norm_num)) (by norm_num))]
  have hidx : ∀ j, j < 64 → ((j ^^^ 4) ^^^ 2) ^^^ 1 = j ^^^ 7 := by decide
  rw [hidx i hi]

lemma bswap_64_testBit (b i : Nat) (hi : i < 64) :
    (bswap_64 b).testBit i = b.testBit (i ^^^ 56) := by
  have h255 : ∀ j, (0xff : Nat).testBit j = decide (j < 8) := fun j => by
    rw [(by norm_num : (0xff : Nat) = 2 ^ 8 - 1), Nat.testBit_two_pow_sub_one]
  unfold bswap_64
  interval_cases i <;>
    simp +decide [h255, Nat.testBit_or, Nat.testBit_and, Nat.testBit_shiftLeft,
      Nat.testBit_shiftRight]

lemma vertical_mirror_testBit (b i : Nat) (hi : i < 64) :
    (vertical_mirror b).testBit i = b.testBit (i ^^^ 56) := by
  unfold vertical_mirror
  exact bswap_64_testBit b i hi

lemma tStage7_testBit (b i : Nat) (hi : i < 64) :
    (tStage7 b).testBit i =
      b.testBit (if (0x00aa00aa00aa00aa : Nat).testBit i then i + 7
        else if 7 ≤ i ∧ (0x00aa00aa00aa00aa : Nat).testBit (i - 7) then i - 7 else i) := by
  have h := deltaSwap_testBit 0x00aa00aa00aa00aa 7 b i hi (by decide)
  unfold tStage7
  exact h

lemma tStage14_testBit (b i : Nat) (hi : i < 64) :
    (tStage14 b).testBit i =
      b.testBit (if (0x0000cccc0000cccc : Nat).testBit i then i + 14
        else if 14 ≤ i ∧ (0x0000cccc0000cccc : Nat).testBit (i - 14) then i - 14 else i) := by
  have h := deltaSwap_testBit 0x0000cccc0000cccc 14 b i hi (by decide)
  unfold tStage14
  exact h

lemma tStage28_testBit (b i : Nat) (hi : i < 64) :
    (tStage28 b).testBit i =
      b.testBit (if (0x00000000f0f0f0f0 : Nat).testBit i then i + 28
        else if 28 ≤ i ∧ (0x00000000f0f0f0f0 : Nat).testBit (i - 28) then i - 28 else i) := by
  have h := deltaSwap_testBit 0x00000000f0f0f0f0 28 b i hi (by decide)
  unfold tStage28
  exact h

lemma transpose_testBit (b i : Nat) (hi : i < 64) :
    (transpose b).testBit i = b.testBit (8 * (i % 8) + i / 8) := by
  have hlt3 : ∀ j, j < 64 → (if (0x00000000f0f0f0f0 : Nat).testBit j then j + 28
      else if 28 ≤ j ∧ (0x00000000f0f0f0f0 : Nat).testBit (j - 28) then j - 28 else j) < 64 := by
    decide
  have hlt2 : ∀ j, j < 64 → (if (0x0000cccc0000cccc : Nat).testBit j then j + 14
      else if 14 ≤ j ∧ (0x0000cccc0000cccc : Nat).testBit (j - 14) then j - 14 else j) < 64 := by
    decide
  unfold transpose
  rw [tStage28_testBit _ _ hi, tStage14_testBit _ _ (hlt3 i hi),
    tStage7_testBit _ _ (hlt2 _ (hlt3 i hi))]
  congr 1
  interval_cases i <;> decide

lemma shl64_lt (x k : Nat) : shl64 x k < 2 ^ 64 := by
  unfold shl64 M64
  exact Nat.mod_lt _ (by norm_num)

lemma horizontal_mirror_lt (b : Nat) : horizontal_mirror b < 2 ^ 64 := by
  unfold horizontal_mirror hStage4
  exact Nat.or_lt_two_pow (Nat.and_lt_two_pow _ (by norm_num))
    (Nat.and_lt_two_pow _ (by norm_num))

lemma and_ff_shl_lt (x s : Nat) (hs : s ≤ 56) : (x &&& 0xff) <<< s < 2 ^ 64 := by
  have h1 : x &&& 0xff ≤ 0xff := Nat.and_le_right
  have h2 : (x &&& 0xff) <<< s ≤ 0xff <<< 56 := by
    rw [Nat.shiftLeft_eq, Nat.shiftLeft_eq]
    exact Nat.mul_le_mul h1 (Nat.pow_le_pow_right (by norm_num) hs)
  have h3 : (0xff : Nat) <<< 56 < 2 ^ 64 := by decide
  omega

lemma vertical_mirror_lt (b : Nat) : vertical_mirror b < 2 ^ 64 := by
  unfold vertical_mirror bswap_64
  refine Nat.or_lt_two_pow (Nat.or_lt_two_pow (Nat.or_lt_two_pow (Nat.or_lt_two_pow
    (Nat.or_lt_two_pow (Nat.or_lt_two_pow (Nat.or_lt_two_pow
      (Nat.and_lt_two_pow _ (by norm_num))
      (and_ff_shl_lt _ _ (by norm_num)))
      (and_ff_shl_lt _ _ (by norm_num)))
      (and_ff_shl_lt _ _ (by norm_num)))
      (and_ff_shl_lt _ _ (by norm_num)))
      (and_ff_shl_lt _ _ (by norm_num)))
      (and_ff_shl_lt _ _ (by norm_num)))
      (and_ff_shl_lt _ _ (by norm_num))

lemma tStage7_lt (b : Nat) (hb : b < 2 ^ 64) : tStage7 b < 2 ^ 64 := by
  unfold tStage7
  exact Nat.xor_lt_two_pow (Nat.xor_lt_two_pow hb (Nat.and_lt_two_pow _ (by norm_num)))
    (shl64_lt _ _)

lemma tStage14_lt (b : Nat) (hb : b < 2 ^ 64) : tStage14 b < 2 ^ 64 := by
  unfold tStage14
  exact Nat.xor_lt_two_pow (Nat.xor_lt_two_pow hb (Nat.and_lt_two_pow _ (by norm_num)))
    (shl64_lt _ _)

lemma tStage28_lt (b : Nat) (hb : b < 2 ^ 64) : tStage28 b < 2 ^ 64 := by
  unfold tStage28
  exact Nat.xor_lt_two_pow (Nat.xor_lt_two_pow hb (Nat.and_lt_two_pow _ (by norm_num)))
    (shl64_lt _ _)

lemma transpose_lt (b : Nat) (hb : b < 2 ^ 64) : transpose b < 2 ^ 64 := by
  unfold transpose
  exact tStage28_lt _ (tStage14_lt _ (tStage7_lt _ hb))

lemma eq64_of_testBit (x y : Nat) (hx : x < 2 ^ 64) (hy : y < 2 ^ 64)
    (h : ∀ i, i < 64 → x.testBit i = y.testBit i) : x = y := by
  apply Nat.eq_of_testBit_eq
  intro i
  by_cases hi : i < 64
  · exact h i hi
  · have h2 : (2 : Nat) ^ 64 ≤ 2 ^ i := Nat.pow_le_pow_right (by norm_num) (by omega)
    rw [Nat.testBit_eq_false_of_lt (by omega), Nat.testBit_eq_false_of_lt (by omega)]

lemma hmirror_hmirror (b : Nat) (hb : b < 2 ^ 64) :
    horizontal_mirror (horizontal_mirror b) = b := by
  apply eq64_of_testBit _ _ (horizontal_mirror_lt _) hb
  intro i hi
  rw [horizontal_mirror_testBit _ _ hi,
    horizontal_mirror_testBit _ _ (xor_lt_64 i 7 hi (by norm_num))]
  have hidx : ∀ j, j < 64 → (j ^^^ 7) ^^^ 7 = j := by decide
  rw [hidx i hi]

lemma vmirror_vmirror (b : Nat) (hb : b < 2 ^ 64) :
    vertical_mirror (vertical_mirror b) = b := by
  apply eq64_of_testBit _ _ (vertical_mirror_lt _) hb
  intro i hi
  rw [vertical_mirror_testBit _ _ hi,
    vertical_mirror_testBit _ _ (xor_lt_64 i 56 hi (by norm_num))]
  have hidx : ∀ j, j < 64 → (j ^^^ 56) ^^^ 56 = j := by decide
  rw [hidx i hi]

lemma transpose_transpose (b : Nat) (hb : b < 2 ^ 64) :
    transpose (transpose b) = b := by
  apply eq64_of_testBit _ _ (transpose_lt _ (transpose_lt _ hb)) hb
  intro i hi
  have hσ : ∀ j, j < 64 → 8 * (j % 8) + j / 8 < 64 := by decide
  rw [transpose_testBit _ _ hi, transpose_testBit _ _ (hσ i hi)]
  have hidx : ∀ j, j < 64 →
      8 * ((8 * (j % 8) + j / 8) % 8) + (8 * (j % 8) + j / 8) / 8 = j := by decide
  rw [hidx i hi]

lemma hv_comm (b : Nat) :
    horizontal_mirror (vertical_mirror b) = vertical_mirror (horizontal_mirror b) := by
  apply eq64_of_testBit _ _ (horizontal_mirror_lt _) (vertical_mirror_lt _)
  intro i hi
  rw [horizontal_mirror_testBit _ _ hi,
    vertical_mirror_testBit _ _ (xor_lt_64 i 7 hi (by norm_num)),
    vertical_mirror_testBit _ _ hi,
    horizontal_mirror_testBit _ _ (xor_lt_64 i 56 hi (by norm_num))]
  have hidx : ∀ j, j < 64 → (j ^^^ 7) ^^^ 56 = (j ^^^ 56) ^^^ 7 := by decide
  rw [hidx i hi]

lemma ht_conj (b : Nat) :
    horizontal_mirror (transpose b) = transpose (vertical_mirror b) := by
  apply eq64_of_testBit _ _ (horizontal_mirror_lt _)
    (transpose_lt _ (vertical_mirror_lt _))
  intro i hi
  have hσ : ∀ j, j < 64 → 8 * (j % 8) + j / 8 < 64 := by decide
  rw [horizontal_mirror_testBit _ _ hi,
    transpose_testBit _ _ (xor_lt_64 i 7 hi (by norm_num)),
    transpose_testBit _ _ hi,
    vertical_mirror_testBit _ _ (hσ i hi)]
  have hidx : ∀ j, j < 64 →
      8 * ((j ^^^ 7) % 8) + (j ^^^ 7) / 8 = (8 * (j % 8) + j / 8) ^^^ 56 := by decide
  rw [hidx i hi]

lemma vt_conj (b : Nat) :
    vertical_mirror (transpose b) = transpose (horizontal_mirror b) := by
  apply eq64_of_testBit _ _ (vertical_mirror_lt _)
    (transpose_lt _ (horizontal_mirror_lt _))
  intro i hi
  have hσ : ∀ j, j < 64 → 8 * (j % 8) + j / 8 < 64 := by decide
  rw [vertical_mirror_testBit _ _ hi,
    transpose_testBit _ _ (xor_lt_64 i 56 hi (by norm_num)),
    transpose_testBit _ _ hi,
    horizontal_mirror_testBit _ _ (hσ i hi)]
  have hidx : ∀ j, j < 64 →
      8 * ((j ^^^ 56) % 8) + (j ^^^ 56) / 8 = (8 * (j % 8) + j / 8) ^^^ 7 := by decide
  rw [hidx i hi]

lemma board_symmetry_comp (t s : Nat) (ht : t < 8) (hs : s < 8) (p o : Nat)
    (hp : p < 2 ^ 64) (ho : o < 2 ^ 64) :
    board_symmetry t (board_symmetry s p o).1 (board_symmetry s p o).2 =
      board_symmetry (symCompose t s) p o := by
  interval_cases s <;> interval_cases t <;>
    simp +decide
      (disch := solve_by_elim [horizontal_mirror_lt, vertical_mirror_lt, transpose_lt, hp, ho])
      [board_symmetry, symCompose, ht_conj, vt_conj, hv_comm,
        hmirror_hmirror, vmirror_vmirror, transpose_transpose]

lemma symCompose_lt : ∀ t, t < 8 → ∀ s, s < 8 → symCompose t s < 8 := by decide

lemma symCompose_surj : ∀ s, s < 8 → ∀ u, u < 8 → ∃ t, t < 8 ∧ symCompose t s = u := by
  decide

lemma board_lesser_iff (p1 o1 p2 o2 : Nat) :
    board_lesser p1 o1 p2 o2 = true ↔ (p1 < p2 ∨ (p1 = p2 ∧ o1 < o2)) := by
  unfold board_lesser
  simp

lemma board_lesser_false_iff (p1 o1 p2 o2 : Nat) :
    board_lesser p1 o1 p2 o2 = false ↔ ¬(p1 < p2 ∨ (p1 = p2 ∧ o1 < o2)) := by
  rw [← board_lesser_iff]
  cases h : board_lesser p1 o1 p2 o2 <;> simp

/-- The lexicographic-min fold of `board_unique_scalar`: the result is one of
the candidates and no candidate is lexicographically smaller. -/
lemma fold_best_spec (l : List (Nat × Nat)) (init : Nat × Nat) :
    (l.foldl (fun best y => if board_lesser y.1 y.2 best.1 best.2 then y else best) init) ∈
      init :: l ∧
    ∀ y ∈ init :: l,
      board_lesser y.1 y.2
        (l.foldl (fun best y => if board_lesser y.1 y.2 best.1 best.2 then y else best) init).1
        (l.foldl (fun best y => if board_lesser y.1 y.2 best.1 best.2 then y else best) init).2 =
        false := by
  induction l generalizing init with
  | nil =>
    refine ⟨List.mem_singleton.mpr rfl, ?_⟩
    intro y hy
    rw [List.mem_singleton] at hy
    subst hy
    simp only [List.foldl_nil]
    rw [board_lesser_false_iff]
    omega
  | cons a l ih =>
    simp only [List.foldl_cons]
    by_cases hab : board_lesser a.1 a.2 init.1 init.2
    · rw [if_pos hab]
      obtain ⟨hmem, hbd⟩ := ih a
      refine ⟨?_, ?_⟩
      · rcases List.mem_cons.mp hmem with h | h
        · rw [h]
          exact List.mem_cons_of_mem _ (List.mem_cons_self a l)
        · exact List.mem_cons_of_mem _ (List.mem_cons_of_mem _ h)
      · intro y hy
        rcases List.mem_cons.mp hy with rfl | hy2
        · have hwin := hbd a (List.mem_cons_self a l)
          rw [board_lesser_false_iff] at hwin ⊢
          rw [board_lesser_iff] at hab
          omega
        · exact hbd y hy2
    · rw [if_neg hab]
      obtain ⟨hmem, hbd⟩ := ih init
      refine ⟨?_, ?_⟩
      · rcases List.mem_cons.mp hmem with h | h
        · rw [h]
          exact List.mem_cons_self _ _
        · exact List.mem_cons_of_mem _ (List.mem_cons_of_mem _ h)
      · intro y hy
        rcases List.mem_cons.mp hy with rfl | hy2
        · exact hbd y (List.mem_cons_self _ _)
        · rcases List.mem_cons.mp hy2 with rfl | hy3
          · have hwin := hbd init (List.mem_cons_self _ _)
            have hab' : ¬(y.1 < init.1 ∨ (y.1 = init.1 ∧ y.2 < init.2)) :=
              fun hcon => hab ((board_lesser_iff _ _ _ _).mpr hcon)
            rw [board_lesser_false_iff] at hwin ⊢
            omega
          · exact hbd y (List.mem_cons_of_mem _ hy3)

lemma board_symmetry_zero (p o : Nat) : board_symmetry 0 p o = (p, o) := by
  simp +decide [board_symmetry]

lemma board_unique_foldl (p o : Nat) :
    board_unique_scalar p o =
      ((List.range 7).map (fun s => board_symmetry (s + 1) p o)).foldl
        (fun best y => if board_lesser y.1 y.2 best.1 best.2 then y else best) (p, o) := by
  unfold board_unique_scalar
  rw [List.foldl_map]

lemma mem_orbit_iff (p o : Nat) (y : Nat × Nat) :
    (y ∈ (p, o) :: (List.range 7).map (fun s => board_symmetry (s + 1) p o)) ↔
      ∃ u, u < 8 ∧ y = board_symmetry u p o := by
  simp only [List.mem_cons, List.mem_map, List.mem_range]
  constructor
  · rintro (rfl | ⟨s, hs, rfl⟩)
    · exact ⟨0, by omega, (board_symmetry_zero p o).symm⟩
    · exact ⟨s + 1, by omega, rfl⟩
  · rintro ⟨u, hu, rfl⟩
    cases u with
    | zero => exact Or.inl (board_symmetry_zero p o)
    | succ s => exact Or.inr ⟨s, by omega, rfl⟩

lemma lex_min_unique (r1 r2 : Nat × Nat)
    (h12 : board_lesser r1.1 r1.2 r2.1 r2.2 = false)
    (h21 : board_lesser r2.1 r2.2 r1.1 r1.2 = false) : r1 = r2 := by
  rw [board_lesser_false_iff] at h12 h21
  apply Prod.ext <;> omega

/-- Canonicalization is invariant under the 8 symmetries: the lexicographic
minimum of the orbit does not depend on which orbit element one starts
from. -/
lemma board_unique_symmetry (p o s : Nat) (hp : p < 2 ^ 64) (ho : o < 2 ^ 64)
    (hs : s < 8) :
    board_unique_scalar (board_symmetry s p o).1 (board_symmetry s p o).2 =
      board_unique_scalar p o := by
  have hmemiff : ∀ y, (∃ u, u < 8 ∧ y = board_symmetry u (board_symmetry s p o).1
      (board_symmetry s p o).2) ↔ ∃ u, u < 8 ∧ y = board_symmetry u p o := by
    intro y
    constructor
    · rintro ⟨u, hu, rfl⟩
      exact ⟨symCompose u s, symCompose_lt u hu s hs,
        board_symmetry_comp u s hu hs p o hp ho⟩
    · rintro ⟨u, hu, rfl⟩
      obtain ⟨t, htlt, hteq⟩ := symCompose_surj s hs u hu
      refine ⟨t, htlt, ?_⟩
      rw [board_symmetry_comp t s htlt hs p o hp ho, hteq]
    -- r1: the canonical form computed from the transformed board
  obtain ⟨hm1, hb1⟩ := fold_best_spec
    ((List.range 7).map (fun u => board_symmetry (u + 1) (board_symmetry s p o).1
      (board_symmetry s p o).2))
    ((board_symmetry s p o).1, (board_symmetry s p o).2)
  obtain ⟨hm2, hb2⟩ := fold_best_spec
    ((List.range 7).map (fun u => board_symmetry (u + 1) p o)) (p, o)
  rw [board_unique_foldl, board_unique_foldl]
  rw [mem_orbit_iff] at hm1 hm2
  have hm1' := (hmemiff _).mp hm1
  have hm2' := (hmemiff _).mpr hm2
  rw [← mem_orbit_iff] at hm1' hm2'
  have h12 := hb2 _ hm1'
  have h21 := hb1 _ hm2'
  exact lex_min_unique _ _ h12 h21

/-- C8: Canonical hashing is symmetry-invariant.  For every board `(P, O)`
(as 64-bit words) and each of the 8 dihedral symmetries `s`, hashing the
transformed board `board_symmetry s P O` gives the same value as hashing
`(P, O)`, for any Zobrist table `zob`. -/
theorem hash_position_symmetry_invariant (zob : Bool → Nat → Nat) (p o s : Nat)
    (hp : p < 2 ^ 64) (ho : o < 2 ^ 64) (hs : s < 8) :
    hash_position zob (board_symmetry s p o).1 (board_symmetry s p o).2 =
      hash_position zob p o := by
  unfold hash_position
  rw [board_unique_symmetry p o s hp ho hs]

theorem hash_position_symmetry_invariant_witness :
    ((0x40020 : Nat) < 2 ^ 64 ∧ (0x400 : Nat) < 2 ^ 64 ∧ (3 : Nat) < 8) ∧
      hash_position (fun c i => if c then 2 * i + 1 else 2 * i)
          (board_symmetry 3 0x40020 0x400).1 (board_symmetry 3 0x40020 0x400).2 =
        hash_position (fun c i => if c then 2 * i + 1 else 2 * i) 0x40020 0x400 :=
  ⟨⟨by decide, by decide, by decide⟩,
    hash_position_symmetry_invariant _ 0x40020 0x400 3 (by decide) (by decide)
      (by decide)⟩
